import Mathlib

/-
Verification of the sodium key/value cache server (Rust sources under src/).
Rust strings are modelled as lists of characters; each Rust function used by a
claim is translated into an executable Lean definition that mirrors its control
flow.  The two server binaries are embedded in separate namespaces:
`ServerApi` for src/server/api.rs (legacy space-separated grammar) and
`SodiumApi` for src/sodium-server/api.rs (function-call grammar).
-/

namespace SodiumSpec

/-- Rust `String` / `&str`, modelled as a list of characters. -/
abbrev Str := List Char

/-- Rust `char::is_whitespace`, restricted to the ASCII whitespace the protocol
can contain (Lean core's `Char.isWhitespace`). -/
def isWs (c : Char) : Bool := c.isWhitespace

/-- Left part of Rust `str::trim`. -/
def trimLeft (l : Str) : Str := l.dropWhile isWs

/-- Right part of Rust `str::trim`. -/
def trimRight (l : Str) : Str := (l.reverse.dropWhile isWs).reverse

/-- Rust `str::trim`. -/
def trimS (l : Str) : Str := trimLeft (trimRight l)

/-- Rust `str::contains(char)`. -/
def hasChar (c : Char) (l : Str) : Bool := l.any (fun x => x == c)

/-- Rust `str::starts_with(char)`. -/
def startsWithChar (c : Char) (l : Str) : Bool :=
  match l with
  | [] => false
  | x :: _ => x == c

/-- Rust `str::ends_with(char)`. -/
def endsWithChar (c : Char) : Str → Bool
  | [] => false
  | [x] => x == c
  | _ :: y :: rest => endsWithChar c (y :: rest)

/-- Rust `str::find(char)` combined with the two slices `&s[..pos]` and
`&s[pos+1..]` that the parsers take right after a successful find. -/
def splitFirst (c : Char) : Str → Option (Str × Str)
  | [] => none
  | x :: xs =>
    if x = c then some ([], xs)
    else
      match splitFirst c xs with
      | none => none
      | some (pre, post) => some (x :: pre, post)

/-- Worker for `split_whitespace`: `cur` is the token being accumulated. -/
def splitWsGo : Str → Str → List Str
  | [], cur => if cur = [] then [] else [cur]
  | c :: rest, cur =>
    if isWs c = true then
      (if cur = [] then splitWsGo rest [] else cur :: splitWsGo rest [])
    else splitWsGo rest (cur ++ [c])

/-- Rust `str::split_whitespace` collected into a vector. -/
def split_whitespace (l : Str) : List Str := splitWsGo l []

/-- Rust `Vec::join(" ")`. -/
def joinSpace : List Str → Str
  | [] => []
  | [x] => x
  | x :: y :: xs => x ++ ' ' :: joinSpace (y :: xs)

/-- Rust `str::to_lowercase` (ASCII case; the protocol text is ASCII). -/
def toLowerS (l : Str) : Str := l.map Char.toLower

/-- Rust `str::to_uppercase` (ASCII case). -/
def toUpperS (l : Str) : Str := l.map Char.toUpper

/-- Rust `str::contains(&str)`: substring test. -/
def strContains (hay needle : Str) : Bool :=
  (List.range (hay.length + 1)).any fun i => needle.isPrefixOf (hay.drop i)

/-- Character class of `validate_key`: ASCII alphanumeric, `-` or `_`. -/
def keyChar (c : Char) : Bool := c.isAlphanum || c == '-' || c == '_'

/-- A hyphen or an underscore. -/
def sepChar (c : Char) : Bool := c == '-' || c == '_'

/-- Error type of both api.rs files.  The payload strings of the source are
`format!` results; here each error site uses a fixed abbreviated message, which
preserves the error kind (the claims only depend on the kind). -/
inductive ApiError
  | InvalidCommand (msg : String)
  | CacheFailure (msg : String)
  | NetworkFailure (msg : String)
  | Utf8Failure (msg : String)
deriving DecidableEq

/-- The boundary/flank loop of `Command::validate_key` (both api.rs files):
for every index holding `-` or `_`, the index is neither 0 nor last, and both
neighbours are ASCII alphanumeric. -/
def flankCheck (key : Str) : Bool :=
  (List.range key.length).all fun i =>
    if sepChar (key.getD i ' ') = true then
      decide (i ≠ 0) && decide (i ≠ key.length - 1) &&
        (key.getD (i - 1) ' ').isAlphanum && (key.getD (i + 1) ' ').isAlphanum
    else true

/-- The consecutive-separator loop of `Command::validate_key`. -/
def consecCheck (key : Str) : Bool :=
  (List.range (key.length - 1)).all fun i =>
    !(sepChar (key.getD i ' ') && sepChar (key.getD (i + 1) ' '))

/-- `Command::validate_key`, identical in src/server/api.rs and
src/sodium-server/api.rs. -/
def validate_key (key : Str) : Except ApiError Unit :=
  if key = [] then .error (.InvalidCommand "Key cannot be empty")
  else if hasChar ' ' key = true then .error (.InvalidCommand "Key cannot contain spaces")
  else if key.all keyChar = false then
    .error (.InvalidCommand "Key contains invalid character")
  else if flankCheck key = false then
    .error (.InvalidCommand "Hyphens and underscores must be between letters or numbers")
  else if consecCheck key = false then
    .error (.InvalidCommand "Key cannot have consecutive hyphens or underscores")
  else .ok ()

namespace ServerApi

/-- Command enum of src/server/api.rs. -/
inductive Command
  | Set (key value : Str)
  | Get (key : Str)
  | Delete (key : Str)
  | Keys
deriving DecidableEq

/-- `Command::parse_set_args` of src/server/api.rs. -/
def parse_set_args (args : Str) : Except ApiError (Str × Str) :=
  if args = [] then .error (.InvalidCommand "SET command requires key and value")
  else
    match splitFirst ' ' args with
    | none => .error (.InvalidCommand "SET command requires key and value")
    | some (key, rest0) =>
      if trimS rest0 = [] then .error (.InvalidCommand "SET command requires key and value")
      else
        if startsWithChar '"' (trimS rest0) = true ∧ endsWithChar '"' (trimS rest0) = true ∧
            2 ≤ (trimS rest0).length then
          .ok (key, ((trimS rest0).drop 1).dropLast)
        else
          .ok (key, joinSpace (split_whitespace (trimS rest0)))

/-- `Command::parse` of src/server/api.rs, after the initial `trim`. -/
def parseCore (input : Str) : Except ApiError Command :=
  if input = [] then .error (.InvalidCommand "Empty command")
  else
    match splitFirst ' ' input with
    | some (pre, post) => parseVerb pre (trimS post)
    | none => parseVerb input []
where
  /-- The `match command.to_uppercase().as_str()` body. -/
  parseVerb (command rest : Str) : Except ApiError Command :=
    if toUpperS command = "SET".data then
      match parse_set_args rest with
      | .error e => .error e
      | .ok (key, value) =>
        match validate_key key with
        | .error e => .error e
        | .ok _ => .ok (.Set key value)
    else if toUpperS command = "GET".data then
      if rest = [] then .error (.InvalidCommand "GET command requires exactly one key")
      else
        match validate_key rest with
        | .error e => .error e
        | .ok _ => .ok (.Get rest)
    else if toUpperS command = "DEL".data ∨ toUpperS command = "DELETE".data then
      if rest = [] then .error (.InvalidCommand "DEL command requires exactly one key")
      else
        match validate_key rest with
        | .error e => .error e
        | .ok _ => .ok (.Delete rest)
    else if toUpperS command = "KEYS".data then
      if rest = [] then .ok .Keys
      else .error (.InvalidCommand "KEYS command takes no arguments")
    else .error (.InvalidCommand "Unknown command")

/-- `Command::parse` of src/server/api.rs. -/
def parse (input : Str) : Except ApiError Command := parseCore (trimS input)

end ServerApi

namespace SodiumApi

/-- `SearchType` of src/sodium-server/search.rs. -/
inductive SearchType
  | Key
  | Value
  | KeyOrValue
  | KeyAndValue
deriving DecidableEq

/-- `SearchType::parse` of src/sodium-server/search.rs (error message
abbreviated; the source formats the offending input into it). -/
def SearchType.parse (input : Str) : Except String SearchType :=
  if toLowerS (trimS input) = "key".data then .ok .Key
  else if toLowerS (trimS input) = "value".data then .ok .Value
  else if toLowerS (trimS input) = "key or value".data then .ok .KeyOrValue
  else if toLowerS (trimS input) = "key and value".data then .ok .KeyAndValue
  else .error "Invalid search type"

/-- Command enum of src/sodium-server/api.rs. -/
inductive Command
  | Set (key value : Str)
  | Get (key : Str)
  | Delete (key : Str)
  | Keys
  | Search (search_type : SearchType) (queries : List Str)
deriving DecidableEq

/-- Core of `Command::unquote_string` on the already-trimmed token. -/
def unquoteCore (t : Str) : Str :=
  if startsWithChar '"' t = true ∧ endsWithChar '"' t = true ∧ 2 ≤ t.length then
    (t.drop 1).dropLast
  else t

/-- `Command::unquote_string` of src/sodium-server/api.rs. -/
def unquote_string (s : Str) : Str := unquoteCore (trimS s)

/-- `Command::split_function_args` loop: `inq` is `in_quotes`, `inb` is
`in_brackets`, `cur` is `current_arg`, `acc` the collected `args`. -/
def splitFnArgsGo : Str → Bool → Int → Str → List Str → Except ApiError (List Str)
  | [], inq, inb, cur, acc =>
    if inq = true then .error (.InvalidCommand "Unclosed quote in arguments")
    else if ¬ inb = 0 then .error (.InvalidCommand "Unclosed bracket in arguments")
    else if trimS cur = [] then .ok acc
    else .ok (acc ++ [trimS cur])
  | c :: rest, inq, inb, cur, acc =>
    if c = '"' then splitFnArgsGo rest (!inq) inb (cur ++ [c]) acc
    else if c = '[' ∧ inq = false then splitFnArgsGo rest inq (inb + 1) (cur ++ [c]) acc
    else if c = ']' ∧ inq = false then splitFnArgsGo rest inq (inb - 1) (cur ++ [c]) acc
    else if c = ',' ∧ inq = false ∧ inb = 0 then splitFnArgsGo rest inq inb [] (acc ++ [trimS cur])
    else splitFnArgsGo rest inq inb (cur ++ [c]) acc

/-- `Command::split_function_args` of src/sodium-server/api.rs. -/
def split_function_args (args : Str) : Except ApiError (List Str) :=
  splitFnArgsGo args false 0 [] []

/-- `Command::parse_function_args_single` of src/sodium-server/api.rs. -/
def parse_function_args_single (args : Str) : Except ApiError Str :=
  if trimS args = [] then .error (.InvalidCommand "Function requires an argument")
  else .ok (unquote_string (trimS args))

/-- `Command::parse_function_args` of src/sodium-server/api.rs, specialised to
its only call site (`expected_count = 2`). -/
def parse_function_args2 (args : Str) : Except ApiError (Str × Str) :=
  if trimS args = [] then .error (.InvalidCommand "Function requires 2 arguments")
  else
    match split_function_args (trimS args) with
    | .error e => .error e
    | .ok parts =>
      if parts.length = 2 then
        .ok (unquote_string (parts.getD 0 []), unquote_string (parts.getD 1 []))
      else .error (.InvalidCommand "Function requires 2 arguments, got a different count")

/-- `Command::find_comma_outside_quotes` loop. -/
def findCommaGo : Str → Bool → Nat → Option Nat
  | [], _, _ => none
  | c :: rest, inq, i =>
    if c = '"' then findCommaGo rest (!inq) (i + 1)
    else if c = ',' ∧ inq = false then some i
    else findCommaGo rest inq (i + 1)

/-- `Command::find_comma_outside_quotes` of src/sodium-server/api.rs. -/
def find_comma_outside_quotes (s : Str) : Option Nat := findCommaGo s false 0

/-- `Command::extract_first_quoted_term` of src/sodium-server/api.rs. -/
def extract_first_quoted_term (s : Str) : Except ApiError Str :=
  match trimS s with
  | '"' :: rest =>
    match splitFirst '"' rest with
    | some (pre, _) => .ok pre
    | none => .error (.InvalidCommand "Expected quoted term")
  | _ => .error (.InvalidCommand "Expected quoted term")

/-- `Command::is_valid_search_term` of src/sodium-server/api.rs. -/
def is_valid_search_term (t : Str) : Bool := t == "key".data || t == "value".data

/-- `Command::parse_search_type_parts` of src/sodium-server/api.rs. -/
def parse_search_type_parts (left_part right_part op : Str) : Except ApiError Str :=
  match extract_first_quoted_term left_part with
  | .error e => .error e
  | .ok left_term =>
    match find_comma_outside_quotes right_part with
    | none => .error (.InvalidCommand "Missing comma after search type")
    | some comma_pos =>
      match extract_first_quoted_term (trimS (right_part.take comma_pos)) with
      | .error e => .error e
      | .ok right_term =>
        if is_valid_search_term left_term = true ∧ is_valid_search_term right_term = true then
          .ok (left_term ++ ' ' :: op ++ ' ' :: right_term)
        else .error (.InvalidCommand "Search type must be \"key\" or \"value\"")

/-- `Command::split_array_elements` loop of src/sodium-server/api.rs. -/
def splitArrayGo : Str → Bool → Str → List Str → Except ApiError (List Str)
  | [], inq, cur, acc =>
    if inq = true then .error (.InvalidCommand "Unclosed quote in array")
    else if trimS cur = [] then .ok acc
    else .ok (acc ++ [trimS cur])
  | c :: rest, inq, cur, acc =>
    if c = '"' then splitArrayGo rest (!inq) (cur ++ [c]) acc
    else if c = ',' ∧ inq = false then
      (if trimS cur = [] then splitArrayGo rest inq [] acc
       else splitArrayGo rest inq [] (acc ++ [trimS cur]))
    else splitArrayGo rest inq (cur ++ [c]) acc

/-- Unquote every array element, rejecting empty queries, as the `for element`
loop of `Command::parse_query_argument` does. -/
def unquoteAll : List Str → Except ApiError (List Str)
  | [] => .ok []
  | e :: es =>
    if unquote_string e = [] then .error (.InvalidCommand "Empty query not allowed")
    else
      match unquoteAll es with
      | .error er => .error er
      | .ok qs => .ok (unquote_string e :: qs)

/-- `Command::parse_query_argument` of src/sodium-server/api.rs.  (The Rust
slice `&arg[1..arg.len()-1]` panics on the one-character argument `[`; the
embedding returns the empty-array error there, a corner no claim touches.) -/
def parse_query_argument (arg0 : Str) : Except ApiError (List Str) :=
  if startsWithChar '[' (trimS arg0) = true ∧ endsWithChar ']' (trimS arg0) = true then
    (if trimS (((trimS arg0).drop 1).dropLast) = [] then
      .error (.InvalidCommand "Empty array not allowed")
    else
      match splitArrayGo (trimS (((trimS arg0).drop 1).dropLast)) false [] [] with
      | .error e => .error e
      | .ok elements =>
        match unquoteAll elements with
        | .error e => .error e
        | .ok queries =>
          if queries = [] then .error (.InvalidCommand "At least one query required")
          else .ok queries)
  else
    if unquote_string (trimS arg0) = [] then .error (.InvalidCommand "Empty query not allowed")
    else .ok [unquote_string (trimS arg0)]

/-- `Command::find_operator` loop of src/sodium-server/api.rs. -/
def findOperatorGo (op : Str) : Str → Bool → Nat → Option Nat
  | [], _, _ => none
  | c :: rest, inq, i =>
    if c = '"' then findOperatorGo op rest (!inq) (i + 1)
    else if inq = false ∧ op.isPrefixOf (c :: rest) = true then some i
    else findOperatorGo op rest inq (i + 1)

/-- `Command::find_operator` of src/sodium-server/api.rs. -/
def find_operator (s op : Str) : Option Nat := findOperatorGo op s false 0

/-- `Command::split_at_operator` of src/sodium-server/api.rs. -/
def split_at_operator (s : Str) (pos : Nat) (op : Str) : Str × Str :=
  (trimS (s.take pos), trimS (s.drop (pos + op.length)))

/-- `Command::extract_queries_after_operator` of src/sodium-server/api.rs. -/
def extract_queries_after_operator (right_part : Str) : Except ApiError (List Str) :=
  match find_comma_outside_quotes right_part with
  | none => .error (.InvalidCommand "Missing comma after search type")
  | some p => parse_query_argument (trimS (right_part.drop (p + 1)))

/-- `Command::parse_search_args` of src/sodium-server/api.rs, after the
initial trim of `args_str`. -/
def parseSearchArgsCore (args : Str) : Except ApiError (Str × List Str) :=
  if args = [] then .error (.InvalidCommand "Search requires 2 arguments")
  else
    match find_operator args " or ".data with
    | some p =>
      (match parse_search_type_parts (split_at_operator args p " or ".data).1
          (split_at_operator args p " or ".data).2 "or".data with
      | .error e => .error e
      | .ok st =>
        match extract_queries_after_operator (split_at_operator args p " or ".data).2 with
        | .error e => .error e
        | .ok qs => .ok (st, qs))
    | none =>
      match find_operator args " and ".data with
      | some p =>
        (match parse_search_type_parts (split_at_operator args p " and ".data).1
            (split_at_operator args p " and ".data).2 "and".data with
        | .error e => .error e
        | .ok st =>
          match extract_queries_after_operator (split_at_operator args p " and ".data).2 with
          | .error e => .error e
          | .ok qs => .ok (st, qs))
      | none =>
        match split_function_args args with
        | .error e => .error e
        | .ok parts =>
          if parts.length = 2 then
            (if unquote_string (parts.getD 0 []) = "key".data ∨
                unquote_string (parts.getD 0 []) = "value".data then
              match parse_query_argument (parts.getD 1 []) with
              | .error e => .error e
              | .ok qs => .ok (unquote_string (parts.getD 0 []), qs)
            else .error (.InvalidCommand "Use simple or compound search type syntax with quoted terms"))
          else .error (.InvalidCommand "Search requires 2 arguments")

/-- `Command::parse_search_args` of src/sodium-server/api.rs. -/
def parse_search_args (args : Str) : Except ApiError (Str × List Str) :=
  parseSearchArgsCore (trimS args)

/-- The `contains('(') && ends_with(')')` test of src/sodium-server/api.rs
(`Command::is_function_syntax`). -/
def is_function_form (input : Str) : Bool := hasChar '(' input && endsWithChar ')' input

/-- `Command::parse_function_syntax` of src/sodium-server/api.rs.  The source
slices `&input[open+1..input.len()-1]`; since the caller guarantees the input
ends with `)`, that slice is everything after the first `(` minus the final
character, i.e. `post.dropLast`. -/
def parseFunctionForm (input : Str) : Except ApiError Command :=
  match splitFirst '(' input with
  | none => .error (.InvalidCommand "Invalid function syntax")
  | some (namePart, post) => parseFnName (toLowerS (trimS namePart)) post.dropLast
where
  /-- The `match function_name.to_lowercase().as_str()` body. -/
  parseFnName (fname args_str : Str) : Except ApiError Command :=
    if fname = "set".data then
      match parse_function_args2 args_str with
      | .error e => .error e
      | .ok (key, value) =>
        match validate_key key with
        | .error e => .error e
        | .ok _ => .ok (.Set key value)
    else if fname = "get".data then
      match parse_function_args_single args_str with
      | .error e => .error e
      | .ok key =>
        match validate_key key with
        | .error e => .error e
        | .ok _ => .ok (.Get key)
    else if fname = "delete".data ∨ fname = "del".data then
      match parse_function_args_single args_str with
      | .error e => .error e
      | .ok key =>
        match validate_key key with
        | .error e => .error e
        | .ok _ => .ok (.Delete key)
    else if fname = "keys".data then
      if trimS args_str = [] then .ok .Keys
      else .error (.InvalidCommand "keys() takes no arguments")
    else if fname = "search".data then
      match parse_search_args args_str with
      | .error e => .error e
      | .ok (st, qs) =>
        match SearchType.parse st with
        | .error _ => .error (.InvalidCommand "Invalid search type")
        | .ok t => .ok (.Search t qs)
    else .error (.InvalidCommand "Unknown function")

/-- `Command::parse` of src/sodium-server/api.rs, after the initial trim. -/
def parseCore (input : Str) : Except ApiError Command :=
  if input = [] then .error (.InvalidCommand "Empty command")
  else if toLowerS input = "keys".data then .ok .Keys
  else if is_function_form input = true then parseFunctionForm input
  else .error (.InvalidCommand "Invalid command format")

/-- `Command::parse` of src/sodium-server/api.rs. -/
def parse (input : Str) : Except ApiError Command := parseCore (trimS input)

end SodiumApi

namespace Cache

/-- `CacheEntry` of src/server/cache.rs (and the identical core of
src/sodium-server); `accessed_at` holds monotonic seconds, modelled as the
`now` argument threaded through the operations. -/
structure CacheEntry where
  value : Str
  accessed_at : Nat
deriving DecidableEq

/-- The `Sodium` store of src/server/cache.rs: a map from key to entry plus
three counters.  The `DashMap` is modelled as an association list with unique
keys maintained by insert-replace. -/
structure Sodium where
  storage : List (Str × CacheEntry)
  total_operations : Nat
  hit_count : Nat
  miss_count : Nat
deriving DecidableEq

/-- `CacheError` of src/server/cache.rs. -/
inductive CacheError
  | KeyNotFound (key : Str)
deriving DecidableEq

/-- Map lookup (`DashMap::get`). -/
def lookupE : List (Str × CacheEntry) → Str → Option CacheEntry
  | [], _ => none
  | (k2, e) :: rest, k => if k2 = k then some e else lookupE rest k

/-- Map insert-or-replace (`DashMap::insert`). -/
def insertE : List (Str × CacheEntry) → Str → CacheEntry → List (Str × CacheEntry)
  | [], k, e => [(k, e)]
  | (k2, e2) :: rest, k, e =>
    if k2 = k then (k, e) :: rest else (k2, e2) :: insertE rest k e

/-- Map remove (`DashMap::remove`), returning whether the key existed. -/
def removeE : List (Str × CacheEntry) → Str → Bool × List (Str × CacheEntry)
  | [], _ => (false, [])
  | (k2, e2) :: rest, k =>
    if k2 = k then (true, rest)
    else ((removeE rest k).1, (k2, e2) :: (removeE rest k).2)

/-- `CacheEntry::update_access_time` applied through `DashMap::get`. -/
def updateAccess : List (Str × CacheEntry) → Str → Nat → List (Str × CacheEntry)
  | [], _, _ => []
  | (k2, e) :: rest, k, now =>
    if k2 = k then (k2, { value := e.value, accessed_at := now }) :: rest
    else (k2, e) :: updateAccess rest k now

/-- Key enumeration (`DashMap::iter` mapped to keys). -/
def keysOf (st : List (Str × CacheEntry)) : List Str := st.map (fun p => p.1)

/-- `Sodium::set` of src/server/cache.rs. -/
def Sodium.set (now : Nat) (k v : Str) (s : Sodium) : Sodium :=
  { storage := insertE s.storage k { value := v, accessed_at := now },
    total_operations := s.total_operations + 1,
    hit_count := s.hit_count, miss_count := s.miss_count }

/-- `Sodium::get` of src/server/cache.rs. -/
def Sodium.get (now : Nat) (k : Str) (s : Sodium) : Except CacheError Str × Sodium :=
  match lookupE s.storage k with
  | some e =>
    (.ok e.value,
     { storage := updateAccess s.storage k now,
       total_operations := s.total_operations + 1,
       hit_count := s.hit_count + 1, miss_count := s.miss_count })
  | none =>
    (.error (.KeyNotFound k),
     { storage := s.storage,
       total_operations := s.total_operations + 1,
       hit_count := s.hit_count, miss_count := s.miss_count + 1 })

/-- `Sodium::delete` of src/server/cache.rs. -/
def Sodium.delete (k : Str) (s : Sodium) : Bool × Sodium :=
  ((removeE s.storage k).1,
   { storage := (removeE s.storage k).2,
     total_operations := s.total_operations + 1,
     hit_count := s.hit_count, miss_count := s.miss_count })

/-- `Sodium::keys` of src/server/cache.rs. -/
def Sodium.keysOp (s : Sodium) : List Str × Sodium :=
  (keysOf s.storage,
   { storage := s.storage,
     total_operations := s.total_operations + 1,
     hit_count := s.hit_count, miss_count := s.miss_count })

/-- `execute_get` of src/server/cache.rs: the dispatch layer maps the
internal `KeyNotFound` error kind to the non-error outcome `Ok(None)`. -/
def execute_get (now : Nat) (k : Str) (s : Sodium) : Except String (Option Str) × Sodium :=
  match Sodium.get now k s with
  | (.ok v, s2) => (.ok (some v), s2)
  | (.error (.KeyNotFound _), s2) => (.ok none, s2)

/-- `execute_delete` of src/server/cache.rs (`Sodium::delete` never errs). -/
def execute_delete (k : Str) (s : Sodium) : Except String Bool × Sodium :=
  (.ok (Sodium.delete k s).1, (Sodium.delete k s).2)

/-- The `Command::Get` arm of `TcpApiServer::execute_command`
(identical in both api.rs files): hit formats the raw value, miss the
sentinel line `NULL`, a dispatch error an `ERROR:` line. -/
def respondGet (r : Except String (Option Str)) : Str :=
  match r with
  | .ok (some v) => v
  | .ok none => "NULL".data
  | .error e => ("ERROR: " ++ e).data

/-- The `Command::Delete` arm of `TcpApiServer::execute_command`. -/
def respondDelete (r : Except String Bool) : Str :=
  match r with
  | .ok true => "1".data
  | .ok false => "0".data
  | .error e => ("ERROR: " ++ e).data

/-- A store with no entries and zeroed counters (`Sodium::new`). -/
def emptySodium : Sodium :=
  { storage := [], total_operations := 0, hit_count := 0, miss_count := 0 }

end Cache

namespace SearchEngine

open Cache SodiumApi

/-- `SearchEngine::key_contains_all` of src/sodium-server/search.rs
(`queries` are already lower-cased by the caller). -/
def key_contains_all (key : Str) (queries : List Str) : Bool :=
  queries.all fun q => strContains (toLowerS key) q

/-- `SearchEngine::value_contains_all` of src/sodium-server/search.rs. -/
def value_contains_all (v : Str) (queries : List Str) : Bool :=
  queries.all fun q => strContains (toLowerS v) q

/-- The `if let Ok(value) = cache.get(&key)` pattern of `search_multiple`:
one store GET, whose side effects are kept, then the value predicate
(`false` on miss). -/
def valueMatch (now : Nat) (ql : List Str) (s : Sodium) (k : Str) : Sodium × Bool :=
  match Sodium.get now k s with
  | (.ok v, s2) => (s2, value_contains_all v ql)
  | (.error _, s2) => (s2, false)

/-- The `should_include` match of `SearchEngine::search_multiple`. -/
def searchShould (now : Nat) (st : SearchType) (ql : List Str) (s : Sodium) (k : Str) :
    Sodium × Bool :=
  match st with
  | .Key => (s, key_contains_all k ql)
  | .Value => valueMatch now ql s k
  | .KeyOrValue =>
    ((valueMatch now ql s k).1, key_contains_all k ql || (valueMatch now ql s k).2)
  | .KeyAndValue =>
    ((valueMatch now ql s k).1, key_contains_all k ql && (valueMatch now ql s k).2)

/-- The `for key in all_keys` loop of `SearchEngine::search_multiple`. -/
def searchGo (now : Nat) (st : SearchType) (ql : List Str) :
    List Str → Sodium → Sodium × List Str
  | [], s => (s, [])
  | k :: ks, s =>
    ((searchGo now st ql ks (searchShould now st ql s k).1).1,
     if (searchShould now st ql s k).2 = true then
       k :: (searchGo now st ql ks (searchShould now st ql s k).1).2
     else (searchGo now st ql ks (searchShould now st ql s k).1).2)

/-- `SearchEngine::search_multiple` of src/sodium-server/search.rs, run
sequentially against the store (`cache.keys()` then the per-key loop). -/
def search_multiple (now : Nat) (st : SearchType) (queries : List Str) (s : Sodium) :
    Sodium × List Str :=
  searchGo now st (queries.map toLowerS) (Sodium.keysOp s).1 (Sodium.keysOp s).2

/-- Whether a mode consults values, i.e. issues one GET per enumerated key. -/
def consults : SearchType → Bool
  | .Key => false
  | .Value => true
  | .KeyOrValue => true
  | .KeyAndValue => true

end SearchEngine

namespace Threading

open Cache

/-- `Task` of src/server/threading.rs (the reply channel is left implicit:
the sequential model returns the result to the submitter directly). -/
inductive Task
  | CacheGet (key : Str)
  | CacheSet (key value : Str)
  | CacheDelete (key : Str)
  | CacheKeys
deriving DecidableEq

/-- `WorkQueue` of src/server/threading.rs. -/
structure WorkQueue where
  queue : List Task
  is_shutdown : Bool
deriving DecidableEq

/-- `WorkQueue::push`: the best-effort `try_lock` outcome at this instant is
the oracle `lockOk`; the push itself never blocks. -/
def WorkQueue.push (lockOk : Bool) (q : WorkQueue) (t : Task) : Bool × WorkQueue :=
  if q.is_shutdown = true then (false, q)
  else if lockOk = true then (true, { queue := q.queue ++ [t], is_shutdown := q.is_shutdown })
  else (false, q)

/-- `ThreadPool` of src/server/threading.rs (workers omitted: only the
submission path matters to the claims). -/
structure ThreadPool where
  queues : List WorkQueue
  next_queue : Nat
  shutdown : Bool
deriving DecidableEq

/-- `ThreadPool::execute`: round-robin queue choice and best-effort push. -/
def ThreadPool.execute (lockOk : Bool) (p : ThreadPool) (t : Task) : Bool × ThreadPool :=
  if p.shutdown = true then (false, p)
  else
    ((WorkQueue.push lockOk
        (p.queues.getD (p.next_queue % p.queues.length) { queue := [], is_shutdown := true }) t).1,
     { queues := p.queues.set (p.next_queue % p.queues.length)
         (WorkQueue.push lockOk
           (p.queues.getD (p.next_queue % p.queues.length) { queue := [], is_shutdown := true }) t).2,
       next_queue := p.next_queue + 1,
       shutdown := p.shutdown })

/-- `execute_cache_get` of src/server/threading.rs composed with the worker:
on successful submission the worker runs `cache::execute_get` and replies;
on failed submission the caller gets `Err("Failed to queue task")` and the
store is untouched. -/
def execute_cache_get (now : Nat) (lockOk : Bool) (p : ThreadPool) (s : Sodium) (k : Str) :
    Except String (Option Str) × ThreadPool × Sodium :=
  if (ThreadPool.execute lockOk p (.CacheGet k)).1 = true then
    ((execute_get now k s).1, (ThreadPool.execute lockOk p (.CacheGet k)).2,
     (execute_get now k s).2)
  else (.error "Failed to queue task", (ThreadPool.execute lockOk p (.CacheGet k)).2, s)

end Threading

namespace Config

/-- The TOML values distinguished by `parse_partial_config`; every other
value kind (float, array, table, datetime) is collapsed into `vOther`. -/
inductive TomlVal
  | vStr (s : String)
  | vInt (n : Int)
  | vBool (b : Bool)
  | vOther
deriving DecidableEq

/-- A top-level TOML table, the output of `toml::from_str::<toml::Value>` on
syntactically valid content. -/
abbrev TomlTable := List (String × TomlVal)

/-- Table lookup (`table.get(key)`). -/
def tomlGet : TomlTable → String → Option TomlVal
  | [], _ => none
  | (k2, v) :: rest, k => if k2 = k then some v else tomlGet rest k

/-- `SodiumConfig` of src/server/configuration.rs (`bind_port : u16` and
`whisper_timeout : u32` are Nats kept in range by the operations). -/
structure SodiumConfig where
  bind_ip : String
  bind_port : Nat
  cluster_enabled : Bool
  whisper_timeout : Nat
deriving DecidableEq

/-- `SodiumConfig::default` of src/server/configuration.rs. -/
def defaultConfig : SodiumConfig :=
  { bind_ip := "0.0.0.0", bind_port := 1123,
    cluster_enabled := false, whisper_timeout := 1 }

/-- `toml::from_str::<SodiumConfig>` on an already-parsed table: serde derive
requires all four fields present with matching types, with range-checked
integer narrowing; unknown keys are ignored. -/
def typedFromToml (t : TomlTable) : Option SodiumConfig :=
  match tomlGet t "bind-ip", tomlGet t "bind-port",
      tomlGet t "cluster_enabled", tomlGet t "whisper_timeout" with
  | some (.vStr ip), some (.vInt p), some (.vBool b), some (.vInt w) =>
    if 0 ≤ p ∧ p < 65536 ∧ 0 ≤ w ∧ w < 4294967296 then
      some { bind_ip := ip, bind_port := p.toNat, cluster_enabled := b, whisper_timeout := w.toNat }
    else none
  | _, _, _, _ => none

/-- `toml::from_str::<SodiumConfig>` on raw content, where `none` stands for
content that is not syntactically valid TOML. -/
def typedParse : Option TomlTable → Option SodiumConfig
  | none => none
  | some t => typedFromToml t

/-- `SodiumConfig::parse_partial_config` of src/server/configuration.rs:
start from defaults and override each recognized key that is present with the
matching TOML type (`as u16` / `as u32` truncating casts on integers). -/
def parsePartialConfig (t : TomlTable) : SodiumConfig :=
  { bind_ip :=
      match tomlGet t "bind-ip" with
      | some (.vStr ip) => ip
      | _ => defaultConfig.bind_ip,
    bind_port :=
      match tomlGet t "bind-port" with
      | some (.vInt p) => (p.emod 65536).toNat
      | _ => defaultConfig.bind_port,
    cluster_enabled :=
      match tomlGet t "cluster_enabled" with
      | some (.vBool b) => b
      | _ => defaultConfig.cluster_enabled,
    whisper_timeout :=
      match tomlGet t "whisper_timeout" with
      | some (.vInt w) => (w.emod 4294967296).toNat
      | _ => defaultConfig.whisper_timeout }

/-- `ConfigError` of src/server/configuration.rs. -/
inductive ConfigError
  | ioFailure
  | tomlParseFailure
  | tomlSerializeFailure
  | jsonSerializeFailure
deriving DecidableEq

/-- `SodiumConfig::heal_config` of src/server/configuration.rs (identity). -/
def heal_config (c : SodiumConfig) : SodiumConfig := c

/-- `SodiumConfig::load_and_heal` of src/server/configuration.rs on content
represented by its syntactic parse outcome (`none` = invalid TOML text).  The
file write-back is I/O and is modelled by the returned healed config; when
the content is not valid TOML, `parse_partial_config`'s own
`toml::from_str::<toml::Value>` fails and the `?` operator propagates a
`TomlParse` error. -/
def load_and_heal : Option TomlTable → Except ConfigError SodiumConfig
  | none => .error .tomlParseFailure
  | some t =>
    match typedFromToml t with
    | some c => .ok (heal_config c)
    | none => .ok (heal_config (parsePartialConfig t))

end Config

/-! Claim-level specification predicates, written from the claims' words. -/

/-- C1's acceptance condition on a key: non-empty, every character ASCII
alphanumeric or `-` or `_`, no `-`/`_` at position 0 or the last position,
and no two consecutive characters both in `{-, _}`. -/
def KeyOkClaim (key : Str) : Prop :=
  key ≠ [] ∧
  (∀ c ∈ key, keyChar c = true) ∧
  (∀ i < key.length, sepChar (key.getD i ' ') = true → i ≠ 0 ∧ i ≠ key.length - 1) ∧
  (∀ i, i + 1 < key.length →
    ¬(sepChar (key.getD i ' ') = true ∧ sepChar (key.getD (i + 1) ' ') = true))

/-- C8's value rule on the remainder of a legacy SET line after the key
(outer whitespace already trimmed, as the parser trims at entry and after the
key split): if the remainder begins and ends with `"` — two distinct quote
characters, hence length at least 2 — the outer quotes are stripped with no
escape processing; otherwise the whitespace-collapsed concatenation of the
remaining tokens. -/
def setValueClaim (r : Str) : Str :=
  if startsWithChar '"' r = true ∧ endsWithChar '"' r = true ∧ 2 ≤ r.length then
    (r.drop 1).dropLast
  else joinSpace (split_whitespace r)

/-- C3's mode table: `Key` needs K, `Value` needs V, `KeyOrValue` needs
K ∨ V, `KeyAndValue` needs K ∧ V. -/
def ModeMatchClaim (st : SodiumApi.SearchType) (K V : Prop) : Prop :=
  match st with
  | .Key => K
  | .Value => V
  | .KeyOrValue => K ∨ V
  | .KeyAndValue => K ∧ V

/-- The value currently stored under a key, ignoring bookkeeping. -/
def valuesOf (s : Cache.Sodium) (k : Str) : Option Str :=
  (Cache.lookupE s.storage k).map (fun e => e.value)

/-- C3's K: the lower-cased key contains every lower-cased query. -/
def KClaim (queries : List Str) (k : Str) : Prop :=
  ∀ q ∈ queries, strContains (toLowerS k) (toLowerS q) = true

/-- C3's V: the lower-cased value fetched by GET contains every lower-cased
query; false when that GET misses. -/
def VClaim (s : Cache.Sodium) (queries : List Str) (k : Str) : Prop :=
  match valuesOf s k with
  | some v => ∀ q ∈ queries, strContains (toLowerS v) (toLowerS q) = true
  | none => False

/-- Pointwise boolean form of the per-key search decision, over a fixed view
of the stored values. -/
def searchPredB (vals : Str → Option Str) (st : SodiumApi.SearchType) (ql : List Str)
    (k : Str) : Bool :=
  match st with
  | .Key => SearchEngine.key_contains_all k ql
  | .Value =>
    (match vals k with
     | some v => SearchEngine.value_contains_all v ql
     | none => false)
  | .KeyOrValue =>
    SearchEngine.key_contains_all k ql ||
      (match vals k with
       | some v => SearchEngine.value_contains_all v ql
       | none => false)
  | .KeyAndValue =>
    SearchEngine.key_contains_all k ql &&
      (match vals k with
       | some v => SearchEngine.value_contains_all v ql
       | none => false)

/-! ### General list and character lemmas -/

theorem dropWhile_eq_self_of_none {p : Char → Bool} {l : Str}
    (h : ∀ c ∈ l, p c = false) : l.dropWhile p = l := by
  induction l with
  | nil => rfl
  | cons x xs ih =>
    rw [List.dropWhile_cons, if_neg (by simp [h x (List.mem_cons_self x xs)])]

theorem head_false_of_dropWhile {p : Char → Bool} {l t : Str} {c : Char}
    (h : l.dropWhile p = c :: t) : p c = false := by
  induction l with
  | nil => simp [List.dropWhile] at h
  | cons x xs ih =>
    by_cases hx : p x = true
    · rw [List.dropWhile_cons, if_pos hx] at h
      exact ih h
    · rw [List.dropWhile_cons, if_neg hx] at h
      cases h
      simpa using hx

theorem dropWhile_append_of_ne_nil {p : Char → Bool} {l m : Str}
    (h : l.dropWhile p ≠ []) : (l ++ m).dropWhile p = l.dropWhile p ++ m := by
  induction l with
  | nil => simp at h
  | cons x xs ih =>
    by_cases hx : p x = true
    · rw [List.cons_append, List.dropWhile_cons, if_pos hx,
        ih (by rwa [List.dropWhile_cons, if_pos hx] at h), List.dropWhile_cons, if_pos hx]
    · rw [List.cons_append, List.dropWhile_cons, if_neg hx, List.dropWhile_cons, if_neg hx,
        List.cons_append]

theorem dropWhile_idem {p : Char → Bool} (l : Str) :
    (l.dropWhile p).dropWhile p = l.dropWhile p := by
  cases hd : l.dropWhile p with
  | nil => rfl
  | cons c t =>
    rw [List.dropWhile_cons, if_neg (by simp [head_false_of_dropWhile hd])]

theorem trimLeft_cons_of {c : Char} {l : Str} (h : isWs c = false) :
    trimLeft (c :: l) = c :: l := by
  unfold trimLeft
  rw [List.dropWhile_cons, if_neg (by simp [h])]

theorem trimRight_id_of_all {l : Str} (h : ∀ c ∈ l, isWs c = false) :
    trimRight l = l := by
  unfold trimRight
  rw [dropWhile_eq_self_of_none (fun c hc => h c (List.mem_reverse.mp hc)),
    List.reverse_reverse]

theorem trimS_id_of_all {l : Str} (h : ∀ c ∈ l, isWs c = false) : trimS l = l := by
  unfold trimS
  rw [trimRight_id_of_all h]
  exact dropWhile_eq_self_of_none h

theorem trimRight_ne_nil_of_trimS {l : Str} (h : trimS l ≠ []) : trimRight l ≠ [] := by
  intro h0
  apply h
  unfold trimS
  rw [h0]
  rfl

theorem trimRight_append {l m : Str} (h : trimRight m ≠ []) :
    trimRight (l ++ m) = l ++ trimRight m := by
  have hm : m.reverse.dropWhile isWs ≠ [] := by
    intro h0
    apply h
    unfold trimRight
    rw [h0]
    rfl
  unfold trimRight
  rw [List.reverse_append, dropWhile_append_of_ne_nil hm, List.reverse_append,
    List.reverse_reverse]

theorem trimRight_idem (l : Str) : trimRight (trimRight l) = trimRight l := by
  unfold trimRight
  rw [List.reverse_reverse, dropWhile_idem]

theorem trimS_trimRight (l : Str) : trimS (trimRight l) = trimS l := by
  unfold trimS
  rw [trimRight_idem]

theorem splitFirst_concat {c : Char} {pre post : Str} (h : ∀ x ∈ pre, x ≠ c) :
    splitFirst c (pre ++ c :: post) = some (pre, post) := by
  induction pre with
  | nil => simp [splitFirst]
  | cons x xs ih =>
    rw [List.cons_append]
    unfold splitFirst
    rw [if_neg (h x (List.mem_cons_self x xs)), ih (fun y hy => h y (List.mem_cons_of_mem x hy))]

theorem endsWithChar_concat (c : Char) (l : Str) : endsWithChar c (l ++ [c]) = true := by
  induction l with
  | nil => simp [endsWithChar]
  | cons x xs ih =>
    cases hxs : xs ++ [c] with
    | nil => exact absurd hxs (by simp)
    | cons y ys =>
      rw [List.cons_append, hxs]
      show endsWithChar c (y :: ys) = true
      rw [← hxs]
      exact ih

theorem splitWsGo_solid {v : Str} (h : ∀ c ∈ v, isWs c = false) :
    ∀ cur, splitWsGo v cur = if cur ++ v = [] then [] else [cur ++ v] := by
  induction v with
  | nil => intro cur; simp [splitWsGo]
  | cons x xs ih =>
    intro cur
    have hx : isWs x = false := h x (List.mem_cons_self x xs)
    rw [splitWsGo, if_neg (by simp [hx]),
      ih (fun c hc => h c (List.mem_cons_of_mem x hc)) (cur ++ [x])]
    simp

theorem split_whitespace_solid {v : Str} (hne : v ≠ []) (h : ∀ c ∈ v, isWs c = false) :
    split_whitespace v = [v] := by
  unfold split_whitespace
  rw [splitWsGo_solid h [], if_neg (by simpa using hne)]
  rfl

theorem isWs_cases {c : Char} (h : isWs c = true) :
    c = ' ' ∨ c = '\t' ∨ c = '\r' ∨ c = '\n' := by
  simp [isWs, Char.isWhitespace] at h
  tauto

theorem keyChar_not_ws {c : Char} (h : keyChar c = true) : isWs c = false := by
  cases hw : isWs c with
  | false => rfl
  | true => rcases isWs_cases hw with rfl | rfl | rfl | rfl <;> exact absurd h (by decide)

theorem alnum_of_keyChar_not_sep {c : Char} (h : keyChar c = true) (hs : sepChar c = false) :
    c.isAlphanum = true := by
  have h1 : c ≠ '-' := by intro hc; subst hc; simp [sepChar] at hs
  have h2 : c ≠ '_' := by intro hc; subst hc; simp [sepChar] at hs
  simp only [keyChar, Bool.or_eq_true, beq_iff_eq] at h
  tauto

theorem keyChar_ne_special {c : Char} (h : keyChar c = true) :
    c ≠ '(' ∧ c ≠ ')' ∧ c ≠ '"' ∧ c ≠ ',' ∧ c ≠ ' ' ∧ c ≠ '[' ∧ c ≠ ']' := by
  refine ⟨?_, ?_, ?_, ?_, ?_, ?_, ?_⟩ <;> (intro hc; subst hc; exact absurd h (by decide))

theorem getD_mem_of_lt {l : Str} {i : Nat} {d : Char} (h : i < l.length) :
    l.getD i d ∈ l := by
  induction l generalizing i with
  | nil => simp at h
  | cons x xs ih =>
    cases i with
    | zero => simp [List.getD]
    | succ n =>
      have hn : n < xs.length := by simpa using h
      rw [List.getD_cons_succ]
      exact List.mem_cons_of_mem x (ih hn)

theorem hasChar_space_false {key : Str} (h : ∀ c ∈ key, keyChar c = true) :
    hasChar ' ' key = false := by
  cases hx : hasChar ' ' key with
  | false => rfl
  | true =>
    unfold hasChar at hx
    rcases List.any_eq_true.mp hx with ⟨c, hc, hcc⟩
    have : c = ' ' := by simpa using hcc
    subst this
    exact absurd (h _ hc) (by decide)

theorem validate_key_facts {key : Str} (h : validate_key key = .ok ()) :
    key ≠ [] ∧ (∀ c ∈ key, keyChar c = true) := by
  unfold validate_key at h
  split_ifs at h with h1 h2 h3 h4 h5; try simp at h
  refine ⟨h1, ?_⟩
  intro c hc
  have hall : key.all keyChar = true := by
    cases hx : key.all keyChar with
    | false => exact absurd hx h3
    | true => rfl
  exact List.all_eq_true.mp hall c hc

/-! ### Claim C1 -/

/-- C1: the key validator accepts `k` iff `k` is non-empty, every character is
ASCII alphanumeric, `-` or `_`, no `-`/`_` occurs at position 0 or at the last
position, and no two consecutive characters are both in `{-, _}`; every
rejection is an invalid-command error. -/
theorem C1_validate_key_iff (key : Str) :
    (validate_key key = .ok () ↔ KeyOkClaim key) ∧
    (validate_key key = .ok () ∨
      ∃ msg, validate_key key = .error (.InvalidCommand msg)) := by
  constructor
  · constructor
    · intro h
      have hfacts := validate_key_facts h
      unfold validate_key at h
      split_ifs at h with h1 h2 h3 h4 h5; try simp at h
      have hflank : flankCheck key = true := by
        cases hx : flankCheck key with
        | false => exact absurd hx h4
        | true => rfl
      have hcons : consecCheck key = true := by
        cases hx : consecCheck key with
        | false => exact absurd hx h5
        | true => rfl
      refine ⟨hfacts.1, hfacts.2, ?_, ?_⟩
      · intro i hi hsep
        have hfl := List.all_eq_true.mp hflank i (List.mem_range.mpr hi)
        rw [if_pos hsep] at hfl
        simp only [Bool.and_eq_true, decide_eq_true_eq] at hfl
        exact ⟨hfl.1.1.1, hfl.1.1.2⟩
      · intro i hi hpair
        have hcs := List.all_eq_true.mp hcons i (List.mem_range.mpr (by omega))
        rw [hpair.1, hpair.2] at hcs
        simp at hcs
    · rintro ⟨hne, hall, hbound, hcons⟩
      unfold validate_key
      rw [if_neg hne, if_neg (by simp [hasChar_space_false hall]),
        if_neg (by simp [List.all_eq_true.mpr hall])]
      have hflank : flankCheck key = true := by
        apply List.all_eq_true.mpr
        intro i hirange
        have hi : i < key.length := List.mem_range.mp hirange
        by_cases hsep : sepChar (key.getD i ' ') = true
        · rw [if_pos hsep]
          have hib := hbound i hi hsep
          have hprev : (key.getD (i - 1) ' ').isAlphanum = true := by
            have hi1 : i - 1 < key.length := by omega
            have hk : keyChar (key.getD (i - 1) ' ') = true := hall _ (getD_mem_of_lt hi1)
            apply alnum_of_keyChar_not_sep hk
            cases hx : sepChar (key.getD (i - 1) ' ') with
            | false => rfl
            | true =>
              have hstep : (i - 1) + 1 < key.length := by omega
              have := hcons (i - 1) hstep
              rw [show i - 1 + 1 = i by omega] at this
              exact absurd ⟨hx, hsep⟩ this
          have hnext : (key.getD (i + 1) ' ').isAlphanum = true := by
            have hi1 : i + 1 < key.length := by
              have := hib.2
              omega
            have hk : keyChar (key.getD (i + 1) ' ') = true := hall _ (getD_mem_of_lt hi1)
            apply alnum_of_keyChar_not_sep hk
            cases hx : sepChar (key.getD (i + 1) ' ') with
            | false => rfl
            | true => exact absurd ⟨hsep, hx⟩ (hcons i hi1)
          rw [Bool.and_eq_true, Bool.and_eq_true, Bool.and_eq_true]
          exact ⟨⟨⟨decide_eq_true hib.1, decide_eq_true hib.2⟩, hprev⟩, hnext⟩
        · rw [if_neg hsep]
      have hconsB : consecCheck key = true := by
        apply List.all_eq_true.mpr
        intro i hirange
        have hi : i < key.length - 1 := List.mem_range.mp hirange
        have := hcons i (by omega)
        cases hx : sepChar (key.getD i ' ') with
        | false => simp [hx]
        | true =>
          cases hy : sepChar (key.getD (i + 1) ' ') with
          | false => simp [hx, hy]
          | true => exact absurd ⟨hx, hy⟩ this
      rw [if_neg (by simp [hflank]), if_neg (by simp [hconsB])]
  · unfold validate_key
    split_ifs <;> first
      | exact Or.inl rfl
      | exact Or.inr ⟨_, rfl⟩

/-! ### Store and search-engine lemmas -/

section SearchLemmas

open Cache SearchEngine SodiumApi

theorem lookupE_updateAccess (st : List (Str × CacheEntry)) (k k2 : Str) (now : Nat) :
    lookupE (updateAccess st k now) k2 =
      if k2 = k then (lookupE st k2).map (fun e => { value := e.value, accessed_at := now })
      else lookupE st k2 := by
  induction st with
  | nil => simp [updateAccess, lookupE]
  | cons p rest ih =>
    obtain ⟨kp, e⟩ := p
    by_cases hk : kp = k
    · subst hk
      unfold updateAccess
      rw [if_pos rfl]
      by_cases h2 : kp = k2
      · subst h2
        simp [lookupE]
      · unfold lookupE
        rw [if_neg h2, if_neg h2, if_neg (by intro hx; exact h2 hx.symm)]
    · unfold updateAccess
      rw [if_neg hk]
      unfold lookupE
      by_cases h2 : kp = k2
      · subst h2
        rw [if_pos rfl, if_pos rfl, if_neg (by intro hx; exact hk hx)]
      · rw [if_neg h2, if_neg h2]
        exact ih

theorem valuesOf_get (now : Nat) (k : Str) (s : Sodium) (k2 : Str) :
    valuesOf (Sodium.get now k s).2 k2 = valuesOf s k2 := by
  unfold Sodium.get
  cases hl : lookupE s.storage k with
  | none => rfl
  | some e =>
    unfold valuesOf
    simp only
    rw [lookupE_updateAccess]
    by_cases h2 : k2 = k
    · subst h2
      cases lookupE s.storage k2 <;> simp
    · rw [if_neg h2]

theorem searchShould_spec (now : Nat) (st : SearchType) (ql : List Str) (s : Sodium)
    (k : Str) :
    (searchShould now st ql s k).2 = searchPredB (valuesOf s) st ql k ∧
    (∀ k2, valuesOf (searchShould now st ql s k).1 k2 = valuesOf s k2) := by
  have hvm : (valueMatch now ql s k).2 =
      (match valuesOf s k with
       | some v => value_contains_all v ql
       | none => false) ∧
      (∀ k2, valuesOf (valueMatch now ql s k).1 k2 = valuesOf s k2) := by
    unfold valueMatch
    cases hl : lookupE s.storage k with
    | none =>
      constructor
      · simp [Sodium.get, hl, valuesOf]
      · intro k2
        have := valuesOf_get now k s k2
        simp [Sodium.get, hl] at *
        exact this
    | some e =>
      constructor
      · simp [Sodium.get, hl, valuesOf]
      · intro k2
        have := valuesOf_get now k s k2
        simp [Sodium.get, hl] at *
        exact this
  cases st with
  | Key => exact ⟨rfl, fun _ => rfl⟩
  | Value => exact ⟨hvm.1, hvm.2⟩
  | KeyOrValue =>
    refine ⟨?_, hvm.2⟩
    show (key_contains_all k ql || (valueMatch now ql s k).2) =
      searchPredB (valuesOf s) SearchType.KeyOrValue ql k
    rw [hvm.1]
    rfl
  | KeyAndValue =>
    refine ⟨?_, hvm.2⟩
    show (key_contains_all k ql && (valueMatch now ql s k).2) =
      searchPredB (valuesOf s) SearchType.KeyAndValue ql k
    rw [hvm.1]
    rfl

theorem searchGo_spec (now : Nat) (st : SearchType) (ql : List Str)
    (vals : Str → Option Str) :
    ∀ (ks : List Str) (s : Sodium), (∀ k2, valuesOf s k2 = vals k2) →
      (searchGo now st ql ks s).2 = ks.filter (fun k => searchPredB vals st ql k) ∧
      (∀ k2, valuesOf (searchGo now st ql ks s).1 k2 = vals k2) := by
  intro ks
  induction ks with
  | nil => intro s hv; exact ⟨rfl, hv⟩
  | cons k ks ih =>
    intro s hv
    have hstep := searchShould_spec now st ql s k
    have hvals1 : ∀ k2, valuesOf (searchShould now st ql s k).1 k2 = vals k2 :=
      fun k2 => (hstep.2 k2).trans (hv k2)
    have hrec := ih (searchShould now st ql s k).1 hvals1
    constructor
    · show (if (searchShould now st ql s k).2 = true then
          k :: (searchGo now st ql ks (searchShould now st ql s k).1).2
        else (searchGo now st ql ks (searchShould now st ql s k).1).2) =
          List.filter (fun k => searchPredB vals st ql k) (k :: ks)
      rw [List.filter_cons, hrec.1, hstep.1]
      have hvk : searchPredB (valuesOf s) st ql k = searchPredB vals st ql k := by
        unfold searchPredB
        cases st <;> simp [hv k]
      rw [hvk]
    · exact hrec.2

theorem searchPredB_iff (s : Cache.Sodium) (queries : List Str) (k : Str)
    (st : SearchType) :
    searchPredB (valuesOf s) st (queries.map toLowerS) k = true ↔
      ModeMatchClaim st (KClaim queries k) (VClaim s queries k) := by
  have hK : key_contains_all k (queries.map toLowerS) = true ↔ KClaim queries k := by
    unfold key_contains_all KClaim
    rw [List.all_map, List.all_eq_true]
    rfl
  have hV : (match valuesOf s k with
      | some v => value_contains_all v (queries.map toLowerS)
      | none => false) = true ↔ VClaim s queries k := by
    unfold VClaim
    cases valuesOf s k with
    | none => simp
    | some v =>
      show value_contains_all v (queries.map toLowerS) = true ↔
        ∀ q ∈ queries, strContains (toLowerS v) (toLowerS q) = true
      unfold value_contains_all
      rw [List.all_map, List.all_eq_true]
      rfl
  cases st with
  | Key => exact hK
  | Value => exact hV
  | KeyOrValue =>
    show (key_contains_all k _ || _) = true ↔ _ ∨ _
    rw [Bool.or_eq_true]
    exact or_congr hK hV
  | KeyAndValue =>
    show (key_contains_all k _ && _) = true ↔ _ ∧ _
    rw [Bool.and_eq_true]
    exact and_congr hK hV

theorem isSome_of_mem_keysOf {st : List (Str × Cache.CacheEntry)} {k : Str}
    (h : k ∈ keysOf st) : (lookupE st k).isSome = true := by
  induction st with
  | nil => simp [keysOf] at h
  | cons p rest ih =>
    obtain ⟨kp, e⟩ := p
    by_cases hk : kp = k
    · simp [lookupE, hk]
    · unfold lookupE
      rw [if_neg hk]
      apply ih
      rcases List.mem_cons.mp h with h1 | h1
      · exact absurd h1.symm hk
      · exact h1

theorem searchShould_counters (now : Nat) (st : SearchType) (ql : List Str)
    (s : Cache.Sodium) (k : Str) (hc : SearchEngine.consults st = true)
    (hp : (lookupE s.storage k).isSome = true) :
    (searchShould now st ql s k).1.total_operations = s.total_operations + 1 ∧
    (searchShould now st ql s k).1.hit_count = s.hit_count + 1 ∧
    (searchShould now st ql s k).1.miss_count = s.miss_count ∧
    (searchShould now st ql s k).1.storage = updateAccess s.storage k now := by
  cases hl : lookupE s.storage k with
  | none => rw [hl] at hp; simp at hp
  | some e =>
    cases st with
    | Key => simp [SearchEngine.consults] at hc
    | Value => simp [searchShould, valueMatch, Sodium.get, hl]
    | KeyOrValue => simp [searchShould, valueMatch, Sodium.get, hl]
    | KeyAndValue => simp [searchShould, valueMatch, Sodium.get, hl]

theorem searchGo_counters (now : Nat) (st : SearchType) (ql : List Str)
    (hc : SearchEngine.consults st = true) :
    ∀ (ks : List Str) (s : Cache.Sodium),
      (∀ k ∈ ks, (lookupE s.storage k).isSome = true) →
      (searchGo now st ql ks s).1.total_operations = s.total_operations + ks.length ∧
      (searchGo now st ql ks s).1.hit_count = s.hit_count + ks.length ∧
      (searchGo now st ql ks s).1.miss_count = s.miss_count ∧
      (∀ k2, lookupE (searchGo now st ql ks s).1.storage k2 =
        if k2 ∈ ks then
          (lookupE s.storage k2).map (fun e => { value := e.value, accessed_at := now })
        else lookupE s.storage k2) := by
  intro ks
  induction ks with
  | nil =>
    intro s hp
    refine ⟨by simp [searchGo], by simp [searchGo], by simp [searchGo], ?_⟩
    intro k2
    simp [searchGo]
  | cons k ks ih =>
    intro s hp
    have hsc := searchShould_counters now st ql s k hc (hp k (List.mem_cons_self k ks))
    have hlook1 : ∀ k2, lookupE (searchShould now st ql s k).1.storage k2 =
        if k2 = k then
          (lookupE s.storage k2).map (fun e => { value := e.value, accessed_at := now })
        else lookupE s.storage k2 := by
      intro k2
      rw [hsc.2.2.2, lookupE_updateAccess]
    have hp1 : ∀ k2 ∈ ks, (lookupE (searchShould now st ql s k).1.storage k2).isSome = true := by
      intro k2 hk2
      rw [hlook1 k2]
      by_cases h2 : k2 = k
      · rw [if_pos h2]
        have hpk : (lookupE s.storage k2).isSome = true := by
          subst h2
          exact hp k2 (List.mem_cons_self k2 ks)
        cases hls : lookupE s.storage k2 with
        | none => rw [hls] at hpk; simp at hpk
        | some e => rfl
      · rw [if_neg h2]
        exact hp k2 (List.mem_cons_of_mem k hk2)
    have hrec := ih (searchShould now st ql s k).1 hp1
    have hgo1 : (searchGo now st ql (k :: ks) s).1 =
        (searchGo now st ql ks (searchShould now st ql s k).1).1 := rfl
    refine ⟨?_, ?_, ?_, ?_⟩
    · rw [hgo1, hrec.1, hsc.1]
      simp [List.length_cons]
      omega
    · rw [hgo1, hrec.2.1, hsc.2.1]
      simp [List.length_cons]
      omega
    · rw [hgo1, hrec.2.2.1, hsc.2.2.1]
    · intro k2
      rw [hgo1, hrec.2.2.2 k2, hlook1 k2]
      by_cases hin : k2 ∈ ks
      · rw [if_pos hin, if_pos (List.mem_cons_of_mem k hin)]
        by_cases h2 : k2 = k
        · rw [if_pos h2]
          cases lookupE s.storage k2 <;> simp
        · rw [if_neg h2]
      · rw [if_neg hin]
        by_cases h2 : k2 = k
        · rw [if_pos h2, if_pos (by simp [h2])]
        · rw [if_neg h2, if_neg (by simp [hin, h2])]

theorem searchGo_key_state (now : Nat) (ql : List Str) :
    ∀ (ks : List Str) (s : Cache.Sodium), (searchGo now .Key ql ks s).1 = s := by
  intro ks
  induction ks with
  | nil => intro s; rfl
  | cons k ks ih => intro s; exact ih s

end SearchLemmas

/-! ### Claim C3 -/

/-- C3: for every mode and non-empty query list, a key of the snapshot is in
the search result iff its mode condition over K (all lower-cased queries are
substrings of the lower-cased key) and V (all lower-cased queries are
substrings of the lower-cased stored value; false on miss) holds; the result
is a subset of the snapshot. -/
theorem C3_search_membership (now : Nat) (st : SodiumApi.SearchType)
    (queries : List Str) (s : Cache.Sodium) (hq : queries ≠ []) :
    (∀ k, k ∈ (SearchEngine.search_multiple now st queries s).2 ↔
      k ∈ Cache.keysOf s.storage ∧
        ModeMatchClaim st (KClaim queries k) (VClaim s queries k)) ∧
    (∀ k ∈ (SearchEngine.search_multiple now st queries s).2,
      k ∈ Cache.keysOf s.storage) := by
  have hvals : ∀ k2, valuesOf (Cache.Sodium.keysOp s).2 k2 = valuesOf s k2 := by
    intro k2
    rfl
  have hgo := searchGo_spec now st (queries.map toLowerS) (valuesOf s)
    (Cache.Sodium.keysOp s).1 (Cache.Sodium.keysOp s).2 hvals
  have hres : (SearchEngine.search_multiple now st queries s).2 =
      (Cache.keysOf s.storage).filter
        (fun k => searchPredB (valuesOf s) st (queries.map toLowerS) k) := hgo.1
  constructor
  · intro k
    rw [hres, List.mem_filter, searchPredB_iff]
  · intro k hk
    rw [hres] at hk
    exact (List.mem_filter.mp hk).1

/-! ### Claim C9 -/

/-- C9: a SEARCH is not read-only on the bookkeeping: mode `Key` performs
exactly the key-snapshot operation (`total_operations + 1`, nothing else
changed), and every value-consulting mode additionally performs one GET per
enumerated key, each incrementing `total_operations` and (here, always a hit)
`hit_count`, and setting the entry's `accessed_at` to now. -/
theorem C9_search_bookkeeping (now : Nat) (st : SodiumApi.SearchType)
    (queries : List Str) (s : Cache.Sodium) :
    (st = .Key → (SearchEngine.search_multiple now st queries s).1 =
      { storage := s.storage, total_operations := s.total_operations + 1,
        hit_count := s.hit_count, miss_count := s.miss_count }) ∧
    (SearchEngine.consults st = true →
      (SearchEngine.search_multiple now st queries s).1.total_operations =
        s.total_operations + 1 + (Cache.keysOf s.storage).length ∧
      (SearchEngine.search_multiple now st queries s).1.hit_count =
        s.hit_count + (Cache.keysOf s.storage).length ∧
      (SearchEngine.search_multiple now st queries s).1.miss_count = s.miss_count ∧
      (∀ k ∈ Cache.keysOf s.storage,
        (Cache.lookupE s.storage k).isSome = true ∧
        Cache.lookupE (SearchEngine.search_multiple now st queries s).1.storage k =
          (Cache.lookupE s.storage k).map
            (fun e => { value := e.value, accessed_at := now }))) := by
  constructor
  · intro hst
    subst hst
    exact searchGo_key_state now (queries.map toLowerS) (Cache.keysOf s.storage)
      (Cache.Sodium.keysOp s).2
  · intro hc
    have hp : ∀ k ∈ (Cache.Sodium.keysOp s).1,
        (Cache.lookupE (Cache.Sodium.keysOp s).2.storage k).isSome = true := by
      intro k hk
      exact isSome_of_mem_keysOf hk
    have hgo := searchGo_counters now st (queries.map toLowerS) hc
      (Cache.Sodium.keysOp s).1 (Cache.Sodium.keysOp s).2 hp
    have hm : SearchEngine.search_multiple now st queries s =
        SearchEngine.searchGo now st (queries.map toLowerS)
          (Cache.Sodium.keysOp s).1 (Cache.Sodium.keysOp s).2 := rfl
    rw [hm]
    refine ⟨?_, ?_, hgo.2.2.1, ?_⟩
    · rw [hgo.1]
      rfl
    · rw [hgo.2.1]
      rfl
    · intro k hk
      refine ⟨isSome_of_mem_keysOf hk, ?_⟩
      rw [hgo.2.2.2 k, if_pos (show k ∈ (Cache.Sodium.keysOp s).1 from hk)]
      rfl

/-- Witness for C3 at mode `Key`, query list `[a]` and the empty store. -/
theorem C3_search_membership_witness :
    (([['a']] : List Str) ≠ []) ∧
    ((∀ k, k ∈ (SearchEngine.search_multiple 0 .Key [['a']] Cache.emptySodium).2 ↔
      k ∈ Cache.keysOf Cache.emptySodium.storage ∧
        ModeMatchClaim .Key (KClaim [['a']] k) (VClaim Cache.emptySodium [['a']] k)) ∧
    (∀ k ∈ (SearchEngine.search_multiple 0 .Key [['a']] Cache.emptySodium).2,
      k ∈ Cache.keysOf Cache.emptySodium.storage)) :=
  ⟨by decide, C3_search_membership 0 .Key [['a']] Cache.emptySodium (by decide)⟩

/-- Witness for C9 at a one-entry store, for both a Key-mode and a
Value-mode search. -/
theorem C9_search_bookkeeping_witness :
    ((SodiumApi.SearchType.Key = SodiumApi.SearchType.Key) ∧
     (SearchEngine.search_multiple 5 .Key [['a']]
        (Cache.Sodium.set 0 "k".data "v".data Cache.emptySodium)).1 =
      { storage := (Cache.Sodium.set 0 "k".data "v".data Cache.emptySodium).storage,
        total_operations :=
          (Cache.Sodium.set 0 "k".data "v".data Cache.emptySodium).total_operations + 1,
        hit_count := (Cache.Sodium.set 0 "k".data "v".data Cache.emptySodium).hit_count,
        miss_count := (Cache.Sodium.set 0 "k".data "v".data Cache.emptySodium).miss_count }) ∧
    (SearchEngine.consults .Value = true ∧
     (SearchEngine.search_multiple 5 .Value [['a']]
        (Cache.Sodium.set 0 "k".data "v".data Cache.emptySodium)).1.total_operations =
      (Cache.Sodium.set 0 "k".data "v".data Cache.emptySodium).total_operations + 1 +
        (Cache.keysOf (Cache.Sodium.set 0 "k".data "v".data
          Cache.emptySodium).storage).length) :=
  ⟨⟨rfl, (C9_search_bookkeeping 5 .Key [['a']]
      (Cache.Sodium.set 0 "k".data "v".data Cache.emptySodium)).1 rfl⟩,
   ⟨rfl, ((C9_search_bookkeeping 5 .Value [['a']]
      (Cache.Sodium.set 0 "k".data "v".data Cache.emptySodium)).2 rfl).1⟩⟩

/-! ### Claims C5 and C10 -/

theorem removeE_not_found {st : List (Str × Cache.CacheEntry)} {k : Str}
    (h : Cache.lookupE st k = none) : Cache.removeE st k = (false, st) := by
  induction st with
  | nil => rfl
  | cons p rest ih =>
    obtain ⟨kp, e⟩ := p
    unfold Cache.lookupE at h
    by_cases hk : kp = k
    · rw [if_pos hk] at h
      cases h
    · rw [if_neg hk] at h
      unfold Cache.removeE
      rw [if_neg hk, ih h]

/-- C5: a GET of an absent key is not an error — the internal key-not-found
error kind is mapped by the dispatch layer to the non-error miss outcome and
the server responds with the single line `NULL`; a DEL of an absent key is not
an error — it returns `existed = false` and the server responds with `0`. -/
theorem C5_miss_not_error (now : Nat) (k : Str) (s : Cache.Sodium)
    (h : Cache.lookupE s.storage k = none) :
    Cache.Sodium.get now k s =
      (.error (.KeyNotFound k),
       { storage := s.storage, total_operations := s.total_operations + 1,
         hit_count := s.hit_count, miss_count := s.miss_count + 1 }) ∧
    (Cache.execute_get now k s).1 = .ok none ∧
    Cache.respondGet (Cache.execute_get now k s).1 = "NULL".data ∧
    (Cache.Sodium.delete k s).1 = false ∧
    Cache.respondDelete (.ok (Cache.Sodium.delete k s).1) = "0".data := by
  have hg : Cache.Sodium.get now k s =
      (.error (.KeyNotFound k),
       { storage := s.storage, total_operations := s.total_operations + 1,
         hit_count := s.hit_count, miss_count := s.miss_count + 1 }) := by
    unfold Cache.Sodium.get
    rw [h]
  have he : (Cache.execute_get now k s).1 = .ok none := by
    unfold Cache.execute_get
    rw [hg]
  have hd : (Cache.Sodium.delete k s).1 = false := by
    unfold Cache.Sodium.delete
    rw [removeE_not_found h]
  refine ⟨hg, he, ?_, hd, ?_⟩
  · rw [he]
    rfl
  · rw [hd]
    rfl

/-- Witness for C5 at the empty store and key `a`. -/
theorem C5_miss_not_error_witness :
    Cache.lookupE Cache.emptySodium.storage "a".data = none ∧
    ((Cache.execute_get 0 "a".data Cache.emptySodium).1 = .ok none ∧
     Cache.respondGet (Cache.execute_get 0 "a".data Cache.emptySodium).1 = "NULL".data ∧
     (Cache.Sodium.delete "a".data Cache.emptySodium).1 = false ∧
     Cache.respondDelete (.ok (Cache.Sodium.delete "a".data Cache.emptySodium).1) = "0".data) :=
  ⟨rfl, (C5_miss_not_error 0 "a".data Cache.emptySodium rfl).2⟩

/-- C10: the wire response cannot distinguish a GET hit whose stored value is
the string `NULL` from a miss: after `SET k NULL`, a GET of `k` responds with
the same single line `NULL` as a GET on the empty store, because a hit is
formatted as the raw value with no quoting or marker. -/
theorem C10_null_ambiguity :
    Cache.respondGet (Cache.execute_get 1 "k".data
      (Cache.Sodium.set 0 "k".data "NULL".data Cache.emptySodium)).1 = "NULL".data ∧
    Cache.respondGet (Cache.execute_get 1 "k".data Cache.emptySodium).1 = "NULL".data ∧
    valuesOf (Cache.Sodium.set 0 "k".data "NULL".data Cache.emptySodium) "k".data =
      some "NULL".data := by
  refine ⟨rfl, rfl, rfl⟩

/-! ### Claim C6 -/

theorem push_fst (lockOk : Bool) (q : Threading.WorkQueue) (t : Threading.Task) :
    (Threading.WorkQueue.push lockOk q t).1 = (!q.is_shutdown && lockOk) := by
  unfold Threading.WorkQueue.push
  cases hq : q.is_shutdown <;> cases lockOk <;> simp [hq]

theorem execute_fst (lockOk : Bool) (p : Threading.ThreadPool) (t : Threading.Task) :
    (Threading.ThreadPool.execute lockOk p t).1 =
      (!p.shutdown &&
        (!(p.queues.getD (p.next_queue % p.queues.length)
            { queue := [], is_shutdown := true }).is_shutdown && lockOk)) := by
  unfold Threading.ThreadPool.execute
  cases hs : p.shutdown with
  | true => simp
  | false => simp [push_fst]

/-- C6: task submission fails exactly when the pool-wide shutdown flag is
set, the chosen queue's shutdown flag is set, or the chosen queue's try-lock
fails at that instant (the try-lock outcome is the oracle `lockOk`; submission
never blocks); on failure the caller receives `Failed to queue task`, surfaced
to the client as `ERROR: Failed to queue task`, and the store is untouched. -/
theorem C6_submission_failure (p : Threading.ThreadPool) (s : Cache.Sodium) (k : Str)
    (now : Nat) (lockOk : Bool) (t : Threading.Task) (h : p.queues ≠ []) :
    ((Threading.ThreadPool.execute lockOk p t).1 = false ↔
      (p.shutdown = true ∨
        (p.queues.getD (p.next_queue % p.queues.length)
          { queue := [], is_shutdown := true }).is_shutdown = true ∨
        lockOk = false)) ∧
    ((Threading.ThreadPool.execute lockOk p (.CacheGet k)).1 = false →
      (Threading.execute_cache_get now lockOk p s k).1 = .error "Failed to queue task" ∧
      (Threading.execute_cache_get now lockOk p s k).2.2 = s ∧
      Cache.respondGet (Threading.execute_cache_get now lockOk p s k).1 =
        "ERROR: Failed to queue task".data) := by
  constructor
  · rw [execute_fst]
    generalize (p.queues.getD (p.next_queue % p.queues.length)
      { queue := [], is_shutdown := true }) = q
    cases hs : p.shutdown <;> cases hq : q.is_shutdown <;> cases lockOk <;> simp [hs, hq]
  · intro hfail
    unfold Threading.execute_cache_get
    rw [if_neg (by simp [hfail])]
    exact ⟨rfl, rfl, rfl⟩

/-- Witness for C6: a live one-queue pool whose try-lock fails. -/
theorem C6_submission_failure_witness :
    (([ { queue := [], is_shutdown := false } ] :
        List Threading.WorkQueue) ≠ []) ∧
    ((Threading.ThreadPool.execute false
        { queues := [ { queue := [], is_shutdown := false } ],
          next_queue := 0, shutdown := false } (.CacheGet "a".data)).1 = false ↔
      (false = true ∨
        (([ ({ queue := [], is_shutdown := false } : Threading.WorkQueue) ]).getD (0 % 1)
          { queue := [], is_shutdown := true }).is_shutdown = true ∨
        false = false)) ∧
    ((Threading.execute_cache_get 0 false
        { queues := [ { queue := [], is_shutdown := false } ],
          next_queue := 0, shutdown := false } Cache.emptySodium "a".data).1 =
      .error "Failed to queue task") := by
  refine ⟨by decide, ?_, ?_⟩
  · exact (C6_submission_failure
      { queues := [ { queue := [], is_shutdown := false } ],
        next_queue := 0, shutdown := false } Cache.emptySodium "a".data 0 false
      (.CacheGet "a".data) (by decide)).1
  · exact ((C6_submission_failure
      { queues := [ { queue := [], is_shutdown := false } ],
        next_queue := 0, shutdown := false } Cache.emptySodium "a".data 0 false
      (.CacheGet "a".data) (by decide)).2 (by decide)).1

/-! ### Claim C7 -/

/-- C7 counterexample: on content that is not syntactically valid TOML
(represented by `none`, e.g. the file text `=`), full deserialization into the
config record fails, yet `load_and_heal` returns a `TomlParse` error instead
of a healed config — refuting the claim's "for every configuration file
content on which full TOML deserialization fails". -/
theorem C7_counterexample_invalid_toml :
    Config.typedParse none = none ∧
    Config.load_and_heal none = .error Config.ConfigError.tomlParseFailure :=
  ⟨rfl, rfl⟩

/-- C7 amended: when the content parses as a TOML table but typed
deserialization fails, loading salvages each recognized key field-by-field
(present with the matching TOML type; integers through the truncating
`as u16`/`as u32` casts), reverts every missing or ill-typed field to its
default, and returns the healed config; content that fails TOML syntactic
parsing yields an error instead. -/
theorem C7_salvage_amended (t : Config.TomlTable) (h : Config.typedFromToml t = none) :
    Config.load_and_heal (some t) = .ok (Config.parsePartialConfig t) ∧
    (Config.parsePartialConfig t).bind_ip =
      (match Config.tomlGet t "bind-ip" with
       | some (.vStr ip) => ip
       | _ => "0.0.0.0") ∧
    (Config.parsePartialConfig t).bind_port =
      (match Config.tomlGet t "bind-port" with
       | some (.vInt p) => (p.emod 65536).toNat
       | _ => 1123) ∧
    (Config.parsePartialConfig t).cluster_enabled =
      (match Config.tomlGet t "cluster_enabled" with
       | some (.vBool b) => b
       | _ => false) ∧
    (Config.parsePartialConfig t).whisper_timeout =
      (match Config.tomlGet t "whisper_timeout" with
       | some (.vInt w) => (w.emod 4294967296).toNat
       | _ => 1) := by
  refine ⟨?_, rfl, rfl, rfl, rfl⟩
  cases hv : Config.typedFromToml t with
  | some c => rw [h] at hv; cases hv
  | none => simp [Config.load_and_heal, hv, Config.heal_config]

/-- Witness for C7 at a table whose `bind-port` is out of `u16` range, so
typed deserialization fails and field salvage wraps the port. -/
theorem C7_salvage_amended_witness :
    Config.typedFromToml [("bind-port", Config.TomlVal.vInt 70000)] = none ∧
    Config.load_and_heal (some [("bind-port", Config.TomlVal.vInt 70000)]) =
      .ok (Config.parsePartialConfig [("bind-port", Config.TomlVal.vInt 70000)]) ∧
    (Config.parsePartialConfig [("bind-port", Config.TomlVal.vInt 70000)]).bind_port = 4464 :=
  ⟨rfl, (C7_salvage_amended [("bind-port", Config.TomlVal.vInt 70000)] rfl).1, by decide⟩

/-! ### Claim C4 -/

/-- C4 counterexample: the claim admits the sides in either order, but
`search("value" and "key", "q")` is rejected: `parse_search_type_parts`
builds the mode string `value and key`, which `SearchType::parse` does not
recognise, so the parser answers an invalid-command error instead of the mode
`KeyAndValue`. -/
theorem C4_counterexample_value_and_key :
    SodiumApi.parse "search(\"value\" and \"key\", \"q\")".data =
      .error (.InvalidCommand "Invalid search type") := by
  rfl

/-- C4 amended: a compound mode expression is accepted only in the order
`"key"` then `"value"` (`KeyAndValue` for `and`, `KeyOrValue` for `or`); the
reverse order and repeated sides pass `parse_search_type_parts` but are then
rejected by `SearchType::parse` with an invalid-command error; and whenever a
quoted side extracts to a term that is not exactly `key` or `value`,
`parse_search_type_parts` rejects with an invalid-command error. -/
theorem C4_search_mode_amended :
    (∀ left right op t1 t2 p,
      SodiumApi.extract_first_quoted_term left = .ok t1 →
      SodiumApi.find_comma_outside_quotes right = some p →
      SodiumApi.extract_first_quoted_term (trimS (right.take p)) = .ok t2 →
      ¬(SodiumApi.is_valid_search_term t1 = true ∧
        SodiumApi.is_valid_search_term t2 = true) →
      SodiumApi.parse_search_type_parts left right op =
        .error (.InvalidCommand "Search type must be \"key\" or \"value\"")) ∧
    SodiumApi.parse "search(\"key\" and \"value\", \"q\")".data =
      .ok (.Search .KeyAndValue ["q".data]) ∧
    SodiumApi.parse "search(\"key\" or \"value\", \"q\")".data =
      .ok (.Search .KeyOrValue ["q".data]) ∧
    SodiumApi.parse "search(\"value\" and \"key\", \"q\")".data =
      .error (.InvalidCommand "Invalid search type") ∧
    SodiumApi.parse "search(\"value\" or \"key\", \"q\")".data =
      .error (.InvalidCommand "Invalid search type") ∧
    SodiumApi.parse "search(\"key\" and \"key\", \"q\")".data =
      .error (.InvalidCommand "Invalid search type") ∧
    SodiumApi.parse "search(\"value\" or \"value\", \"q\")".data =
      .error (.InvalidCommand "Invalid search type") := by
  refine ⟨?_, rfl, rfl, rfl, rfl, rfl, rfl⟩
  intro left right op t1 t2 p h1 h2 h3 h4
  simp only [SodiumApi.parse_search_type_parts, h1, h2, h3]
  rw [if_neg h4]

/-- Witness for C4's general rejection clause: side `"foo"` is rejected. -/
theorem C4_search_mode_amended_witness :
    SodiumApi.extract_first_quoted_term "\"foo\"".data = .ok "foo".data ∧
    SodiumApi.find_comma_outside_quotes "\"key\", \"q\"".data = some 5 ∧
    SodiumApi.extract_first_quoted_term (trimS (("\"key\", \"q\"".data).take 5)) =
      .ok "key".data ∧
    SodiumApi.parse_search_type_parts "\"foo\"".data "\"key\", \"q\"".data "and".data =
      .error (.InvalidCommand "Search type must be \"key\" or \"value\"") := by
  refine ⟨rfl, rfl, rfl, ?_⟩
  exact C4_search_mode_amended.1 _ _ _ _ _ _ rfl rfl rfl (by decide)

/-! ### Claim C8 -/

theorem serverParse_set_eq (key rest : Str) (hk : validate_key key = .ok ())
    (hr : trimS rest ≠ []) :
    ServerApi.parse ("SET ".data ++ key ++ ' ' :: rest) =
      .ok (.Set key (setValueClaim (trimS rest))) := by
  obtain ⟨hne, hall⟩ := validate_key_facts hk
  obtain ⟨c, kt, hkey⟩ : ∃ c kt, key = c :: kt := by
    cases key with
    | nil => exact absurd rfl hne
    | cons c kt => exact ⟨c, kt, rfl⟩
  have hksp : ∀ x ∈ key, x ≠ ' ' := fun x hx => (keyChar_ne_special (hall x hx)).2.2.2.2.1
  have htrr : trimRight rest ≠ [] := trimRight_ne_nil_of_trimS hr
  have htrim : trimS ("SET ".data ++ key ++ ' ' :: rest)
      = "SET ".data ++ key ++ ' ' :: trimRight rest := by
    have h1 : "SET ".data ++ key ++ ' ' :: rest = ("SET ".data ++ key ++ [' ']) ++ rest := by
      simp
    rw [h1]
    unfold trimS
    rw [trimRight_append htrr]
    have h2 : ("SET ".data ++ key ++ [' ']) ++ trimRight rest
        = 'S' :: ("ET ".data ++ key ++ [' '] ++ trimRight rest) := by simp
    rw [h2, trimLeft_cons_of (by decide)]
    simp
  have hsplit : splitFirst ' ' ("SET ".data ++ key ++ ' ' :: trimRight rest)
      = some ("SET".data, key ++ ' ' :: trimRight rest) := by
    have h3 : "SET ".data ++ key ++ ' ' :: trimRight rest
        = "SET".data ++ ' ' :: (key ++ ' ' :: trimRight rest) := by simp
    rw [h3]
    exact splitFirst_concat (by decide)
  have hinner : trimS (key ++ ' ' :: trimRight rest) = key ++ ' ' :: trimRight rest := by
    have h4 : key ++ ' ' :: trimRight rest = (key ++ [' ']) ++ trimRight rest := by simp
    rw [h4]
    unfold trimS
    rw [trimRight_append (by rw [trimRight_idem]; exact htrr), trimRight_idem]
    have h5 : (key ++ [' ']) ++ trimRight rest
        = c :: (kt ++ [' '] ++ trimRight rest) := by simp [hkey]
    rw [h5, trimLeft_cons_of (keyChar_not_ws (hall c (by rw [hkey]; exact List.mem_cons_self c kt)))]
  have hargs : ServerApi.parse_set_args (key ++ ' ' :: trimRight rest)
      = .ok (key, setValueClaim (trimS rest)) := by
    unfold ServerApi.parse_set_args
    rw [if_neg (by simp [hkey])]
    simp only [splitFirst_concat hksp]
    rw [trimS_trimRight, if_neg hr]
    unfold setValueClaim
    by_cases hcond : startsWithChar '"' (trimS rest) = true ∧
        endsWithChar '"' (trimS rest) = true ∧ 2 ≤ (trimS rest).length
    · rw [if_pos hcond, if_pos hcond]
    · rw [if_neg hcond, if_neg hcond]
  unfold ServerApi.parse
  rw [htrim]
  unfold ServerApi.parseCore
  rw [if_neg (by simp)]
  simp only [hsplit]
  unfold ServerApi.parseCore.parseVerb
  rw [hinner, if_pos (by decide)]
  simp only [hargs, hk]

/-- C8: for a legacy `SET key rest` line with a valid key and a non-blank
remainder, the stored value is computed from the trimmed remainder by the
quote-strip-or-collapse rule `setValueClaim`. -/
theorem C8_set_value_rule (key rest : Str) (hk : validate_key key = .ok ())
    (hr : trimS rest ≠ []) :
    ServerApi.parse ("SET ".data ++ key ++ ' ' :: rest) =
      .ok (.Set key (setValueClaim (trimS rest))) :=
  serverParse_set_eq key rest hk hr

/-- Witness for C8 at key `k` and remainder `a  b` (collapsed to `a b`). -/
theorem C8_set_value_rule_witness :
    validate_key "k".data = .ok () ∧
    trimS "a  b".data ≠ [] ∧
    ServerApi.parse ("SET ".data ++ "k".data ++ ' ' :: "a  b".data) =
      .ok (.Set "k".data (setValueClaim (trimS "a  b".data))) ∧
    setValueClaim (trimS "a  b".data) = "a b".data := by
  refine ⟨rfl, by decide, ?_, by decide⟩
  exact C8_set_value_rule "k".data "a  b".data rfl (by decide)

/-! ### Claim C2: helper lemmas -/

theorem trimLeft_cons_ws {c : Char} {l : Str} (h : isWs c = true) :
    trimLeft (c :: l) = trimLeft l := by
  unfold trimLeft
  rw [List.dropWhile_cons, if_pos (by simp [h])]

theorem trimS_cons_concat {c d : Char} (m : Str) (hc : isWs c = false) (hd : isWs d = false) :
    trimS (c :: (m ++ [d])) = c :: (m ++ [d]) := by
  unfold trimS
  rw [show c :: (m ++ [d]) = (c :: m) ++ [d] from rfl,
    trimRight_append (by
      rw [trimRight_id_of_all (by intro x hx; rw [List.mem_singleton.mp hx]; exact hd)]
      simp),
    trimRight_id_of_all (by intro x hx; rw [List.mem_singleton.mp hx]; exact hd)]
  exact trimLeft_cons_of hc

theorem hasChar_mid (c : Char) (l m : Str) : hasChar c (l ++ c :: m) = true := by
  unfold hasChar
  apply List.any_eq_true.mpr
  exact ⟨c, List.mem_append_right l (List.mem_cons_self c m), by simp⟩

theorem unquote_quoted (k : Str) (hknw : ∀ x ∈ k, isWs x = false) :
    SodiumApi.unquote_string ('"' :: (k ++ ['"'])) = k := by
  unfold SodiumApi.unquote_string
  rw [trimS_cons_concat k (by decide) (by decide)]
  unfold SodiumApi.unquoteCore
  rw [if_pos ⟨rfl, endsWithChar_concat '"' ('"' :: k), by simp⟩]
  show (k ++ ['"']).dropLast = k
  exact List.dropLast_concat

theorem trimS_space_quoted (v : Str) :
    trimS (' ' :: ('"' :: (v ++ ['"']))) = '"' :: (v ++ ['"']) := by
  unfold trimS
  rw [show (' ' :: ('"' :: (v ++ ['"']))) = ((' ' :: '"' :: v) ++ ['"']) from by simp,
    trimRight_append (by
      rw [trimRight_id_of_all (by intro x hx; rw [List.mem_singleton.mp hx]; decide)]
      simp),
    trimRight_id_of_all (by intro x hx; rw [List.mem_singleton.mp hx]; decide)]
  rw [show ((' ' :: '"' :: v) ++ ['"']) = ' ' :: ('"' :: (v ++ ['"'])) from by simp,
    trimLeft_cons_ws (by decide), trimLeft_cons_of (by decide)]

theorem splitFnArgsGo_quoted {l : Str} (h : ∀ x ∈ l, x ≠ '"') :
    ∀ rest inb cur acc,
      SodiumApi.splitFnArgsGo (l ++ rest) true inb cur acc
        = SodiumApi.splitFnArgsGo rest true inb (cur ++ l) acc := by
  induction l with
  | nil => intro rest inb cur acc; simp
  | cons x xs ih =>
    intro rest inb cur acc
    have hx : ¬ x = '"' := h x (List.mem_cons_self x xs)
    rw [List.cons_append]
    have hstep : SodiumApi.splitFnArgsGo (x :: (xs ++ rest)) true inb cur acc
        = SodiumApi.splitFnArgsGo (xs ++ rest) true inb (cur ++ [x]) acc := by
      conv_lhs => unfold SodiumApi.splitFnArgsGo
      rw [if_neg hx, if_neg (by simp), if_neg (by simp), if_neg (by simp)]
    rw [hstep, ih (fun y hy => h y (List.mem_cons_of_mem x hy)) rest inb (cur ++ [x]) acc]
    simp

theorem splitFnArgs_two_quoted (k v : Str) (hkq : ∀ x ∈ k, x ≠ '"')
    (hvq : ∀ x ∈ v, x ≠ '"') (hknw : ∀ x ∈ k, isWs x = false) :
    SodiumApi.splitFnArgsGo
        ('"' :: (k ++ ('"' :: ',' :: ' ' :: '"' :: (v ++ ['"'])))) false 0 [] []
      = .ok ['"' :: (k ++ ['"']), '"' :: (v ++ ['"'])] := by
  show SodiumApi.splitFnArgsGo (k ++ ('"' :: ',' :: ' ' :: '"' :: (v ++ ['"'])))
    true 0 ([] ++ ['"']) [] = _
  rw [splitFnArgsGo_quoted hkq]
  show SodiumApi.splitFnArgsGo (' ' :: '"' :: (v ++ ['"']))
    false 0 [] ([] ++ [trimS ((([] ++ ['"']) ++ k) ++ ['"'])]) = _
  show SodiumApi.splitFnArgsGo ('"' :: (v ++ ['"']))
    false 0 ([] ++ [' ']) ([] ++ [trimS ((([] ++ ['"']) ++ k) ++ ['"'])]) = _
  show SodiumApi.splitFnArgsGo (v ++ ['"'])
    true 0 (([] ++ [' ']) ++ ['"']) ([] ++ [trimS ((([] ++ ['"']) ++ k) ++ ['"'])]) = _
  rw [splitFnArgsGo_quoted hvq]
  show SodiumApi.splitFnArgsGo []
    false 0 (((([] ++ [' ']) ++ ['"']) ++ v) ++ ['"'])
    ([] ++ [trimS ((([] ++ ['"']) ++ k) ++ ['"'])]) = _
  unfold SodiumApi.splitFnArgsGo
  rw [if_neg (by simp), if_neg (by simp)]
  have hcur : trimS (((([] ++ [' ']) ++ ['"']) ++ v) ++ ['"'])
      = '"' :: (v ++ ['"']) := by
    rw [show (((([] ++ [' ']) ++ ['"']) ++ v) ++ ['"'])
      = ' ' :: ('"' :: (v ++ ['"'])) from by simp]
    exact trimS_space_quoted v
  have hk1 : trimS ((([] ++ ['"']) ++ k) ++ ['"']) = '"' :: (k ++ ['"']) := by
    rw [show ((([] ++ ['"']) ++ k) ++ ['"']) = '"' :: (k ++ ['"']) from by simp]
    exact trimS_cons_concat k (by decide) (by decide)
  rw [hcur, hk1, if_neg (by simp)]
  rfl

theorem serverParse_to_verb (verb key : Str)
    (hvne : verb ≠ []) (hvnw : ∀ x ∈ verb, isWs x = false)
    (hvnsp : ∀ x ∈ verb, x ≠ ' ')
    (hkne : key ≠ []) (hkall : ∀ c ∈ key, keyChar c = true) :
    ServerApi.parse (verb ++ ' ' :: key) = ServerApi.parseCore.parseVerb verb key := by
  have hkws : ∀ x ∈ key, isWs x = false := fun x hx => keyChar_not_ws (hkall x hx)
  obtain ⟨v0, vt, hv⟩ : ∃ v0 vt, verb = v0 :: vt := by
    cases verb with
    | nil => exact absurd rfl hvne
    | cons a b => exact ⟨a, b, rfl⟩
  have htrim : trimS (verb ++ ' ' :: key) = verb ++ ' ' :: key := by
    unfold trimS
    rw [show verb ++ ' ' :: key = (verb ++ [' ']) ++ key from by simp,
      trimRight_append (by rw [trimRight_id_of_all hkws]; exact hkne),
      trimRight_id_of_all hkws,
      show (verb ++ [' ']) ++ key = v0 :: (vt ++ [' '] ++ key) from by simp [hv],
      trimLeft_cons_of (hvnw v0 (by rw [hv]; exact List.mem_cons_self v0 vt))]
  unfold ServerApi.parse
  rw [htrim]
  unfold ServerApi.parseCore
  rw [if_neg (by simp [hv]), splitFirst_concat hvnsp]
  show ServerApi.parseCore.parseVerb verb (trimS key) = _
  rw [trimS_id_of_all hkws]

theorem sodiumParse_to_fn (name args : Str)
    (hnne : name ≠ []) (hnw : ∀ x ∈ name, isWs x = false)
    (hnp : ∀ x ∈ name, x ≠ '(')
    (hlow : toLowerS (name ++ ('(' :: (args ++ [')']))) ≠ "keys".data) :
    SodiumApi.parse (name ++ ('(' :: (args ++ [')'])))
      = SodiumApi.parseFunctionForm.parseFnName (toLowerS (trimS name)) args := by
  obtain ⟨n0, nt, hn⟩ : ∃ n0 nt, name = n0 :: nt := by
    cases name with
    | nil => exact absurd rfl hnne
    | cons a b => exact ⟨a, b, rfl⟩
  have htrim : trimS (name ++ ('(' :: (args ++ [')'])))
      = name ++ ('(' :: (args ++ [')'])) := by
    unfold trimS
    rw [show name ++ ('(' :: (args ++ [')'])) = (name ++ ('(' :: args)) ++ [')'] from by simp,
      trimRight_append (by
        rw [trimRight_id_of_all (by intro x hx; rw [List.mem_singleton.mp hx]; decide)]
        simp),
      trimRight_id_of_all (by intro x hx; rw [List.mem_singleton.mp hx]; decide),
      show (name ++ ('(' :: args)) ++ [')'] = n0 :: (nt ++ ('(' :: args) ++ [')'])
        from by simp [hn],
      trimLeft_cons_of (hnw n0 (by rw [hn]; exact List.mem_cons_self n0 nt))]
  have hh : hasChar '(' (name ++ ('(' :: (args ++ [')']))) = true :=
    hasChar_mid '(' name (args ++ [')'])
  have he : endsWithChar ')' (name ++ ('(' :: (args ++ [')']))) = true := by
    rw [show name ++ ('(' :: (args ++ [')'])) = (name ++ ('(' :: args)) ++ [')'] from by simp]
    exact endsWithChar_concat ')' (name ++ ('(' :: args))
  have hff : SodiumApi.is_function_form (name ++ ('(' :: (args ++ [')']))) = true := by
    unfold SodiumApi.is_function_form
    rw [hh, he]
    rfl
  unfold SodiumApi.parse
  rw [htrim]
  unfold SodiumApi.parseCore
  rw [if_neg (by simp [hn]), if_neg hlow, if_pos hff]
  unfold SodiumApi.parseFunctionForm
  rw [splitFirst_concat hnp]
  show SodiumApi.parseFunctionForm.parseFnName (toLowerS (trimS name))
    (args ++ [')']).dropLast = _
  rw [List.dropLast_concat]

theorem parse_single_quoted (k : Str) (hknw : ∀ x ∈ k, isWs x = false) :
    SodiumApi.parse_function_args_single ('"' :: (k ++ ['"'])) = .ok k := by
  unfold SodiumApi.parse_function_args_single
  rw [trimS_cons_concat k (by decide) (by decide), if_neg (by simp)]
  rw [unquote_quoted k hknw]

theorem parse_args2_quoted (k v : Str) (hkq : ∀ x ∈ k, x ≠ '"')
    (hvq : ∀ x ∈ v, x ≠ '"') (hknw : ∀ x ∈ k, isWs x = false)
    (hvnw : ∀ x ∈ v, isWs x = false) :
    SodiumApi.parse_function_args2
        ('"' :: (k ++ ('"' :: ',' :: ' ' :: '"' :: (v ++ ['"']))))
      = .ok (k, v) := by
  have hts : trimS ('"' :: (k ++ ('"' :: ',' :: ' ' :: '"' :: (v ++ ['"']))))
      = '"' :: (k ++ ('"' :: ',' :: ' ' :: '"' :: (v ++ ['"']))) := by
    rw [show ('"' :: (k ++ ('"' :: ',' :: ' ' :: '"' :: (v ++ ['"']))))
      = '"' :: ((k ++ ('"' :: ',' :: ' ' :: '"' :: v)) ++ ['"']) from by simp]
    exact trimS_cons_concat _ (by decide) (by decide)
  unfold SodiumApi.parse_function_args2
  rw [hts, if_neg (by simp)]
  unfold SodiumApi.split_function_args
  rw [splitFnArgs_two_quoted k v hkq hvq hknw]
  show Except.ok (SodiumApi.unquote_string ('"' :: (k ++ ['"'])),
    SodiumApi.unquote_string ('"' :: (v ++ ['"']))) = _
  rw [unquote_quoted k hknw, unquote_quoted v hvnw]

/-! ### Claim C2 -/

/-- C2 counterexample: there is no single parser accepting both surface
syntaxes.  The function-call parser (src/sodium-server/api.rs) rejects the
legacy line `GET foo` instead of parsing it with the legacy grammar, and the
legacy parser (src/server/api.rs) rejects the function-call line
`get("foo")`. -/
theorem C2_counterexample_no_dual_grammar :
    SodiumApi.parse "GET foo".data = .error (.InvalidCommand "Invalid command format") ∧
    ServerApi.parse "get(\"foo\")".data = .error (.InvalidCommand "Unknown command") := by
  exact ⟨rfl, rfl⟩

/-- C2 amended: the two surface syntaxes are handled by two different
parsers: the legacy parser accepts only space-separated commands and the
function-call parser only bare `keys` and `(`…`)` lines, rejecting everything
else.  For commands expressible in both grammars — GET/DEL/DELETE/KEYS with a
valid key, and SET with a valid key and a non-empty value free of whitespace
and quote characters — the legacy form parsed by the legacy parser and the
function-call form parsed by the function-call parser yield the same tagged
command. -/
theorem C2_grammar_equivalence (key v : Str)
    (hk : validate_key key = .ok ())
    (hvne : v ≠ []) (hvc : ∀ c ∈ v, isWs c = false ∧ c ≠ '"') :
    ServerApi.parse ("GET ".data ++ key) = .ok (.Get key) ∧
    SodiumApi.parse ("get(\"".data ++ key ++ "\")".data) = .ok (.Get key) ∧
    ServerApi.parse ("DEL ".data ++ key) = .ok (.Delete key) ∧
    ServerApi.parse ("DELETE ".data ++ key) = .ok (.Delete key) ∧
    SodiumApi.parse ("delete(\"".data ++ key ++ "\")".data) = .ok (.Delete key) ∧
    SodiumApi.parse ("del(\"".data ++ key ++ "\")".data) = .ok (.Delete key) ∧
    ServerApi.parse "KEYS".data = .ok .Keys ∧
    SodiumApi.parse "keys".data = .ok .Keys ∧
    SodiumApi.parse "keys()".data = .ok .Keys ∧
    ServerApi.parse ("SET ".data ++ key ++ ' ' :: v) = .ok (.Set key v) ∧
    SodiumApi.parse ("set(\"".data ++ key ++ "\", \"".data ++ v ++ "\")".data) =
      .ok (.Set key v) := by
  obtain ⟨hne, hall⟩ := validate_key_facts hk
  have hkws : ∀ x ∈ key, isWs x = false := fun x hx => keyChar_not_ws (hall x hx)
  have hkq : ∀ x ∈ key, x ≠ '"' := fun x hx => (keyChar_ne_special (hall x hx)).2.2.1
  have hvnw : ∀ x ∈ v, isWs x = false := fun x hx => (hvc x hx).1
  have hvq : ∀ x ∈ v, x ≠ '"' := fun x hx => (hvc x hx).2
  have hlow7 : ∀ (n0 : Char) (nt : Str), Char.toLower n0 ≠ 'k' →
      toLowerS ((n0 :: nt) ++ ('(' :: (('"' :: (key ++ ['"'])) ++ [')']))) ≠ "keys".data := by
    intro n0 nt hn0 hc
    unfold toLowerS at hc
    rw [show ((n0 :: nt) ++ ('(' :: (('"' :: (key ++ ['"'])) ++ [')'])))
      = n0 :: (nt ++ ('(' :: (('"' :: (key ++ ['"'])) ++ [')']))) from by simp,
      List.map_cons] at hc
    exact hn0 (List.head_eq_of_cons_eq hc)
  have hget : SodiumApi.parse ("get(\"".data ++ key ++ "\")".data) = .ok (.Get key) := by
    rw [show "get(\"".data ++ key ++ "\")".data
      = "get".data ++ ('(' :: (('"' :: (key ++ ['"'])) ++ [')'])) from by simp,
      sodiumParse_to_fn "get".data ('"' :: (key ++ ['"'])) (by simp) (by decide) (by decide)
        (hlow7 'g' "et".data (by decide))]
    unfold SodiumApi.parseFunctionForm.parseFnName
    rw [if_neg (by decide), if_pos (by decide), parse_single_quoted key hkws]
    simp only [hk]
  have hdelete : SodiumApi.parse ("delete(\"".data ++ key ++ "\")".data) = .ok (.Delete key) := by
    rw [show "delete(\"".data ++ key ++ "\")".data
      = "delete".data ++ ('(' :: (('"' :: (key ++ ['"'])) ++ [')'])) from by simp,
      sodiumParse_to_fn "delete".data ('"' :: (key ++ ['"'])) (by simp) (by decide) (by decide)
        (hlow7 'd' "elete".data (by decide))]
    unfold SodiumApi.parseFunctionForm.parseFnName
    rw [if_neg (by decide), if_neg (by decide), if_pos (by decide),
      parse_single_quoted key hkws]
    simp only [hk]
  have hdel : SodiumApi.parse ("del(\"".data ++ key ++ "\")".data) = .ok (.Delete key) := by
    rw [show "del(\"".data ++ key ++ "\")".data
      = "del".data ++ ('(' :: (('"' :: (key ++ ['"'])) ++ [')'])) from by simp,
      sodiumParse_to_fn "del".data ('"' :: (key ++ ['"'])) (by simp) (by decide) (by decide)
        (hlow7 'd' "el".data (by decide))]
    unfold SodiumApi.parseFunctionForm.parseFnName
    rw [if_neg (by decide), if_neg (by decide), if_pos (by decide),
      parse_single_quoted key hkws]
    simp only [hk]
  have hsget : ServerApi.parse ("GET ".data ++ key) = .ok (.Get key) := by
    rw [show "GET ".data ++ key = "GET".data ++ ' ' :: key from by simp,
      serverParse_to_verb "GET".data key (by simp) (by decide) (by decide) hne hall]
    unfold ServerApi.parseCore.parseVerb
    rw [if_neg (by decide), if_pos (by decide), if_neg hne]
    simp only [hk]
  have hsdel : ServerApi.parse ("DEL ".data ++ key) = .ok (.Delete key) := by
    rw [show "DEL ".data ++ key = "DEL".data ++ ' ' :: key from by simp,
      serverParse_to_verb "DEL".data key (by simp) (by decide) (by decide) hne hall]
    unfold ServerApi.parseCore.parseVerb
    rw [if_neg (by decide), if_neg (by decide), if_pos (by decide), if_neg hne]
    simp only [hk]
  have hsdelete : ServerApi.parse ("DELETE ".data ++ key) = .ok (.Delete key) := by
    rw [show "DELETE ".data ++ key = "DELETE".data ++ ' ' :: key from by simp,
      serverParse_to_verb "DELETE".data key (by simp) (by decide) (by decide) hne hall]
    unfold ServerApi.parseCore.parseVerb
    rw [if_neg (by decide), if_neg (by decide), if_pos (by decide), if_neg hne]
    simp only [hk]
  have hsset : ServerApi.parse ("SET ".data ++ key ++ ' ' :: v) = .ok (.Set key v) := by
    have htv : trimS v = v := trimS_id_of_all hvnw
    rw [serverParse_set_eq key v hk (by rw [htv]; exact hvne), htv]
    obtain ⟨v0, vt, hv0⟩ : ∃ v0 vt, v = v0 :: vt := by
      cases v with
      | nil => exact absurd rfl hvne
      | cons a b => exact ⟨a, b, rfl⟩
    have hnostart : startsWithChar '"' v = false := by
      rw [hv0]
      unfold startsWithChar
      simp [hvq v0 (by rw [hv0]; exact List.mem_cons_self v0 vt)]
    have hval : setValueClaim v = v := by
      unfold setValueClaim
      rw [if_neg (by rw [hnostart]; simp),
        split_whitespace_solid hvne hvnw]
      rfl
    rw [hval]
  have hfset : SodiumApi.parse
      ("set(\"".data ++ key ++ "\", \"".data ++ v ++ "\")".data) = .ok (.Set key v) := by
    rw [show "set(\"".data ++ key ++ "\", \"".data ++ v ++ "\")".data
      = "set".data ++ ('(' ::
          (('"' :: (key ++ ('"' :: ',' :: ' ' :: '"' :: (v ++ ['"'])))) ++ [')']))
      from by simp]
    rw [sodiumParse_to_fn "set".data
      ('"' :: (key ++ ('"' :: ',' :: ' ' :: '"' :: (v ++ ['"'])))) (by simp) (by decide)
      (by decide) ?hlow]
    case hlow =>
      intro hc
      have hlen := congrArg List.length hc
      unfold toLowerS at hlen
      simp at hlen
    unfold SodiumApi.parseFunctionForm.parseFnName
    rw [if_pos (by decide), parse_args2_quoted key v hkq hvq hkws hvnw]
    simp only [hk]
  exact ⟨hsget, hget, hsdel, hsdelete, hdelete, hdel, rfl, rfl, rfl, hsset, hfset⟩

/-- Witness for C2 at key `foo` and value `bar`. -/
theorem C2_grammar_equivalence_witness :
    validate_key "foo".data = .ok () ∧
    ("bar".data ≠ []) ∧
    ServerApi.parse ("GET ".data ++ "foo".data) = .ok (.Get "foo".data) ∧
    SodiumApi.parse ("get(\"".data ++ "foo".data ++ "\")".data) = .ok (.Get "foo".data) ∧
    ServerApi.parse ("SET ".data ++ "foo".data ++ ' ' :: "bar".data) =
      .ok (.Set "foo".data "bar".data) ∧
    SodiumApi.parse ("set(\"".data ++ "foo".data ++ "\", \"".data ++ "bar".data ++ "\")".data) =
      .ok (.Set "foo".data "bar".data) := by
  have h := C2_grammar_equivalence "foo".data "bar".data rfl (by decide) (by decide)
  exact ⟨rfl, by decide, h.1, h.2.1, h.2.2.2.2.2.2.2.2.2.1, h.2.2.2.2.2.2.2.2.2.2⟩

end SodiumSpec
